import Mathlib

/-!
# Verification of the chatwork-knowledge-extractor core pipeline

Shallow embedding of the TypeScript sources of the repository
`mypacecreator/chatwork-knowledge-extractor`:

* `src/utils/messageFilter.ts` (the revision with `boilerplateThreshold`,
  `noisePatterns` and `boilerplatePatterns`, i.e. the first file stored in
  `src/unnamed/part_010`) — filter stage;
* `src/cache/messages.ts` — message cache (`mergeMessages`, `save`,
  `markAsAnalyzed`, `mergeAnalysisResults`, `saveAnalysisResults`);
* `src/claude/analyzer.ts` — validation and enrichment of parsed
  classification payloads;
* `src/cache/speakerMap.ts` and `src/team/profiles.ts` — speaker map.

JavaScript strings are modelled as lists of UTF-16 code units
(`List Nat`), because `String.prototype.length`, `substring`,
`lastIndexOf` and non-`u` regular expressions all operate on UTF-16 code
units.  File I/O is modelled by explicit state passing: a cache file is
an `Option` of the cache structure, `none` standing for an absent file.
`new Date().toISOString()` timestamps are passed in as an explicit `now`
argument.
-/

namespace ChatworkKE

/-- UTF-16 code units of a Lean string (astral code points become a
surrogate pair, matching JavaScript's string representation). -/
def jsUnits (s : String) : List Nat :=
  s.data.flatMap fun c =>
    let v := c.toNat
    if v < 0x10000 then [v]
    else [0xD800 + (v - 0x10000) / 0x400, 0xDC00 + (v - 0x10000) % 0x400]

/-- Code units removed by `String.prototype.trim` (ECMAScript WhiteSpace
and LineTerminator sets). -/
def isJsWhitespaceUnit (u : Nat) : Bool :=
  u == 0x09 || u == 0x0A || u == 0x0B || u == 0x0C || u == 0x0D ||
  u == 0x20 || u == 0xA0 || u == 0x1680 ||
  (0x2000 ≤ u && u ≤ 0x200A) ||
  u == 0x2028 || u == 0x2029 || u == 0x202F || u == 0x205F ||
  u == 0x3000 || u == 0xFEFF

/-- `s.trim()`: strip leading and trailing whitespace units. -/
def jsTrim (s : List Nat) : List Nat :=
  ((s.dropWhile isJsWhitespaceUnit).reverse.dropWhile isJsWhitespaceUnit).reverse

/-- `s.lastIndexOf(u)` on code units: `-1` when absent. -/
def jsLastIndexOf (s : List Nat) (u : Nat) : Int :=
  match s.reverse.findIdx? (· == u) with
  | none => -1
  | some i => ((s.length - 1 - i : Nat) : Int)

/-- ASCII lowering of one code unit, the effect of the regex `i` flag on
the ASCII letters appearing in the filter patterns. -/
def asciiLowerUnit (u : Nat) : Nat :=
  if 0x41 ≤ u ∧ u ≤ 0x5A then u + 0x20 else u

/-! ## Filter stage (`src/utils/messageFilter.ts`)

The embedded revision is the one the spec describes: the version with
`minLength`/`maxLength`/`boilerplateThreshold`/`noisePatterns`/
`boilerplatePatterns` (first file of `src/unnamed/part_010`).

The regexes used by the config fall into two shapes, embedded as a small
pattern type:

* `classRep k [c₁,…]` stands for `^[c₁…]{k,}$` — the noise patterns
  `^[!！?？。、,，.・]+$` (`k = 1`), `^w+$` (`k = 1`), `^ww+$` (`k = 2`)
  and `^[👍👌✨🙏💦😊🎉]+$` (`k = 1`, matching the surrogate code units,
  as the source regex has no `u` flag);
* `prefixLit p` stands for `^p(…)?` — every boilerplate pattern tests
  true exactly when the string starts with its mandatory prefix, the
  trailing optional group being able to match the empty string
  (e.g. `^了解(です|しました)?` ⟺ starts with `了解`,
  `^ありがとうございます?` ⟺ starts with `ありがとうございま`).

`new RegExp(pattern, 'i').test(trimmed)` is `jsTest`; the `i` flag is
ASCII case folding on both sides (all non-ASCII characters in the
patterns are unaffected by case folding). -/

inductive JsPattern where
  | classRep (minCount : Nat) (allowed : List Nat)
  | prefixLit (p : List Nat)
deriving DecidableEq, Repr

def jsTest (pat : JsPattern) (s : List Nat) : Bool :=
  let t := s.map asciiLowerUnit
  match pat with
  | .classRep k allowed =>
      k ≤ t.length && t.all (fun u => allowed.contains u)
  | .prefixLit p => (p.map asciiLowerUnit).isPrefixOf t

structure FilterConfig where
  minLength : Nat
  maxLength : Int
  boilerplateThreshold : Nat
  noisePatterns : List JsPattern
  boilerplatePatterns : List JsPattern
deriving Repr

/-- `DEFAULT_FILTER_CONFIG` of the embedded filter revision.  Each
pattern is annotated with the regex string it embeds. -/
def DEFAULT_FILTER_CONFIG : FilterConfig where
  minLength := 10
  maxLength := 300
  boilerplateThreshold := 50
  noisePatterns := [
    -- '^[!！?？。、,，.・]+$'
    .classRep 1 [0x21, 0xFF01, 0x3F, 0xFF1F, 0x3002, 0x3001, 0x2C, 0xFF0C, 0x2E, 0x30FB],
    -- '^w+$'  (case-insensitive)
    .classRep 1 [0x77],
    -- '^ww+$'
    .classRep 2 [0x77],
    -- '^[👍👌✨🙏💦😊🎉]+$' — surrogate code units of the emoji
    -- (high surrogates 0xD83D of 👍👌🙏💦😊 and 0xD83C of 🎉, the BMP unit
    -- 0x2728 of ✨, and the low surrogates)
    .classRep 1 [0xD83D, 0xD83C, 0xDC4D, 0xDC4C, 0x2728, 0xDE4F, 0xDCA6, 0xDE0A, 0xDF89]]
  boilerplatePatterns := [
    .prefixLit (jsUnits "了解"),               -- '^了解(です|しました)?'
    .prefixLit (jsUnits "承知"),               -- '^承知(です|しました)?'
    .prefixLit (jsUnits "確認"),               -- '^確認(します|しました|お願いします)?'
    .prefixLit (jsUnits "チェック"),           -- '^チェック(します|しました)?'
    .prefixLit (jsUnits "修正"),               -- '^修正(します|しました)?'
    .prefixLit (jsUnits "対応"),               -- '^対応(します|しました)?'
    .prefixLit (jsUnits "OK"),                 -- '^OK'
    .prefixLit (jsUnits "ありがとうございま"), -- '^ありがとうございます?'
    .prefixLit (jsUnits "ありがとうございました"),
    .prefixLit (jsUnits "お疲れ様です"),
    .prefixLit (jsUnits "おつかれさまです"),
    .prefixLit (jsUnits "よろしくお願いします"),
    .prefixLit (jsUnits "よろしくお願いいたします"),
    .prefixLit (jsUnits "はい"),
    .prefixLit (jsUnits "いいえ"),
    .prefixLit (jsUnits "そうですね"),
    .prefixLit (jsUnits "そうします"),
    .prefixLit (jsUnits "そうしましょう"),
    .prefixLit (jsUnits "大丈夫です"),
    .prefixLit (jsUnits "問題ないです"),
    .prefixLit (jsUnits "問題ありません"),
    .prefixLit (jsUnits "アップ"),             -- '^アップ(しました|しておきました)?'
    .prefixLit (jsUnits "デプロイ"),
    .prefixLit (jsUnits "プッシュ"),
    .prefixLit (jsUnits "コミット"),
    .prefixLit (jsUnits "更新"),
    .prefixLit (jsUnits "反映"),
    .prefixLit (jsUnits "完了"),               -- '^完了(しました|です)?'
    .prefixLit (jsUnits "済みです"),
    .prefixLit (jsUnits "直しました"),
    .prefixLit (jsUnits "見ました"),
    .prefixLit (jsUnits "見ておきます"),
    .prefixLit (jsUnits "確認しておきます"),
    .prefixLit (jsUnits "おはようございます"),
    .prefixLit (jsUnits "こんにちは"),
    .prefixLit (jsUnits "お先に失礼します"),
    .prefixLit (jsUnits "戻りました"),
    .prefixLit (jsUnits "離席します")]

/-- Skip reasons.  The source builds template strings
`` `too_short (${n} chars)` ``, `` `noise_pattern: ${pattern}` `` and
`` `boilerplate_pattern: ${pattern}` ``; the rendering is injective on
this data, so the reason is kept structured. -/
inductive SkipReason where
  | tooShort (n : Nat)
  | noisePattern (p : JsPattern)
  | boilerplatePattern (p : JsPattern)
deriving DecidableEq, Repr

structure FilterResult where
  skip : Bool
  reason : Option SkipReason
deriving DecidableEq, Repr

/-- `shouldSkipMessage(body, cfg)`. -/
def shouldSkipMessage (body : List Nat) (cfg : FilterConfig) : FilterResult :=
  let trimmed := jsTrim body
  if trimmed.length < cfg.minLength then
    { skip := true, reason := some (.tooShort trimmed.length) }
  else
    match cfg.noisePatterns.find? (fun p => jsTest p trimmed) with
    | some p => { skip := true, reason := some (.noisePattern p) }
    | none =>
        if trimmed.length < cfg.boilerplateThreshold then
          match cfg.boilerplatePatterns.find? (fun p => jsTest p trimmed) with
          | some p => { skip := true, reason := some (.boilerplatePattern p) }
          | none => { skip := false, reason := none }
        else { skip := false, reason := none }

/-- UTF-16 code units of the truncation suffix `…（以下省略）`. -/
def truncationSuffix : List Nat := jsUnits "…（以下省略）"

/-- `truncateMessage(body, maxLength)` of the embedded revision:
no-op when `body.length <= maxLength`; otherwise cut at
`maxLength - suffix.length` (JS `substring` clamps negative indices to
`0`), move the cut back to just after the last `。`, `\n` or `、` when
that point lies past 70% of the target length, trim, and append the
suffix.  The float comparison `lastPeriod > targetLength * 0.7` is
embedded as the exact rational comparison `10 * lastPeriod >
7 * targetLength`; the two agree on every input reachable here (the
operands are small integers, nowhere near the knife-edge cases of
binary64 rounding of `0.7·t`). -/
def truncateMessage (body : List Nat) (maxLength : Int) : List Nat × Bool :=
  if (body.length : Int) ≤ maxLength then (body, false)
  else
    let targetLength : Int := maxLength - (truncationSuffix.length : Int)
    let truncated := body.take targetLength.toNat
    let lastPeriod :=
      max (max (jsLastIndexOf truncated 0x3002) (jsLastIndexOf truncated 0x0A))
        (jsLastIndexOf truncated 0x3001)
    let cutPoint := if 10 * lastPeriod > 7 * targetLength then lastPeriod + 1 else targetLength
    (jsTrim (body.take cutPoint.toNat) ++ truncationSuffix, true)

/-! ## Filter statistics (`filterMessages`) -/

/-- JS `Record` / `Map` assignment `m[k] = v`: overwrite in place when the
key is present (insertion order preserved), append otherwise.  Used for
`stats.reasons`, for the `Map` in `mergeAnalysisResults` and for the
object spreads in `speakerMap.ts`. -/
def jsRecordSet {K V : Type} [DecidableEq K] (m : List (K × V)) (k : K) (v : V) :
    List (K × V) :=
  if m.any (fun p => p.1 = k) then m.map (fun p => if p.1 = k then (k, v) else p)
  else m ++ [(k, v)]

/-- JS `m[k]` read on the assoc-list model of a `Record`/`Map`. -/
def jsRecordGet {K V : Type} [DecidableEq K] (m : List (K × V)) (k : K) : Option V :=
  (m.find? (fun p => p.1 = k)).map (·.2)

structure FilterStats where
  total : Nat
  skipped : Nat
  truncated : Nat
  reasons : List (SkipReason × Nat)
deriving DecidableEq, Repr

/-- Chatwork message (`src/chatwork/client.ts`). -/
structure MsgAccount where
  account_id : Int
  name : List Nat
  avatar_image_url : List Nat
deriving DecidableEq, Repr

structure ChatworkMessage where
  message_id : List Nat
  account : MsgAccount
  body : List Nat
  send_time : Int
  update_time : Int
deriving DecidableEq, Repr

/-- One iteration of the `for (const msg of messages)` loop of
`filterMessages`, acting on the accumulated `(filtered, stats)`. -/
def filterStep (cfg : FilterConfig) :
    List ChatworkMessage × FilterStats → ChatworkMessage →
    List ChatworkMessage × FilterStats
  | (filtered, stats), msg =>
    let skipResult := shouldSkipMessage msg.body cfg
    if skipResult.skip then
      let reason := skipResult.reason.getD (.tooShort 0)
      (filtered,
        { stats with
          skipped := stats.skipped + 1
          reasons := jsRecordSet stats.reasons reason
            ((jsRecordGet stats.reasons reason).getD 0 + 1) })
    else
      let r := truncateMessage msg.body cfg.maxLength
      if r.2 then
        (filtered ++ [{ msg with body := r.1 }], { stats with truncated := stats.truncated + 1 })
      else (filtered ++ [msg], stats)

/-- `filterMessages(messages, cfg)`; `skipResult.reason || 'unknown'` can
never take the `'unknown'` branch because every skipping result carries a
reason, so the default is irrelevant (kept as an arbitrary value). -/
def filterMessages (messages : List ChatworkMessage) (cfg : FilterConfig) :
    List ChatworkMessage × FilterStats :=
  messages.foldl (filterStep cfg)
    ([], { total := messages.length, skipped := 0, truncated := 0, reasons := [] })

/-! ## Message cache (`src/cache/messages.ts`) -/

/-- Descending `send_time` order used by
`merged.sort((a, b) => b.send_time - a.send_time)`.  JS `sort` is stable;
the stable sort itself is embedded as `List.insertionSort`. -/
def bySendTimeDesc (a b : ChatworkMessage) : Prop := b.send_time ≤ a.send_time

instance : DecidableRel bySendTimeDesc := fun a b =>
  inferInstanceAs (Decidable (b.send_time ≤ a.send_time))

instance : IsTotal ChatworkMessage bySendTimeDesc :=
  ⟨fun a b => (le_total b.send_time a.send_time)⟩

instance : IsTrans ChatworkMessage bySendTimeDesc :=
  ⟨fun _ _ _ h1 h2 => le_trans h2 h1⟩

/-- `mergeMessages(existing, newMessages)`: append the incoming messages
whose `message_id` is not among the existing ids (the id set is computed
once, before the loop), then stable-sort by `send_time` descending. -/
def mergeMessages (existing newMessages : List ChatworkMessage) : List ChatworkMessage :=
  let existingIds := existing.map (·.message_id)
  let merged := existing ++ newMessages.filter (fun m => !(existingIds.contains m.message_id))
  List.insertionSort bySendTimeDesc merged

/-- One step of first-occurrence-order deduplication: keep the
accumulator when the element was already seen. -/
def dedupStep (acc : List (List Nat)) (x : List Nat) : List (List Nat) :=
  if acc.contains x then acc else acc ++ [x]

/-- `[...new Set([...a, ...b])]`: first-occurrence-order deduplication of
the concatenation. -/
def dedupPreserve (l : List (List Nat)) : List (List Nat) :=
  l.foldl dedupStep []

/-- `parseInt` on the decimal digit strings Chatwork uses as message ids.
(On non-numeric ids JS `parseInt` yields `NaN` and the comparator is
unspecified; the spec restricts ids to "opaque, numeric-sortable".) -/
def parseIntUnits (s : List Nat) : Int :=
  ((s.takeWhile (fun u => 0x30 ≤ u && u ≤ 0x39)).foldl (fun acc u => acc * 10 + (u - 0x30)) 0 : Nat)

/-- Descending numeric-id order used by
`sort((a, b) => parseInt(b.message_id) - parseInt(a.message_id))`. -/
def byMessageIdDesc (a b : ChatworkMessage) : Prop :=
  parseIntUnits b.message_id ≤ parseIntUnits a.message_id

instance : DecidableRel byMessageIdDesc := fun a b =>
  inferInstanceAs (Decidable (parseIntUnits b.message_id ≤ parseIntUnits a.message_id))

instance : IsTotal ChatworkMessage byMessageIdDesc :=
  ⟨fun a b => (le_total (parseIntUnits b.message_id) (parseIntUnits a.message_id))⟩

instance : IsTrans ChatworkMessage byMessageIdDesc :=
  ⟨fun _ _ _ h1 h2 => le_trans h2 h1⟩

structure MessageCache where
  roomId : List Nat
  lastUpdated : List Nat
  lastMessageId : Option (List Nat)
  messages : List ChatworkMessage
  analyzedMessageIds : List (List Nat)
deriving DecidableEq, Repr

/-- `MessageCacheManager.save(roomId, messages, analyzedMessageIds?)`.
The previously persisted file is the `prev` argument (`none` = absent),
`now` stands for `new Date().toISOString()`.  Note that `save` persists
exactly the given `messages` re-sorted by numeric id descending — it
performs no deduplication of its own. -/
def cacheSave (prev : Option MessageCache) (roomId now : List Nat)
    (messages : List ChatworkMessage) (analyzedMessageIds : Option (List (List Nat))) :
    MessageCache :=
  let existingAnalyzedIds := (prev.map (·.analyzedMessageIds)).getD []
  let allAnalyzedIds := dedupPreserve (existingAnalyzedIds ++ analyzedMessageIds.getD [])
  let sortedMessages := List.insertionSort byMessageIdDesc messages
  { roomId := roomId
    lastUpdated := now
    lastMessageId := sortedMessages.head?.map (·.message_id)
    messages := sortedMessages
    analyzedMessageIds := allAnalyzedIds }

/-- `getUnanalyzedMessages(messages, analyzedIds)`. -/
def getUnanalyzedMessages (messages : List ChatworkMessage) (analyzedIds : List (List Nat)) :
    List ChatworkMessage :=
  messages.filter (fun msg => !(analyzedIds.contains msg.message_id))

/-- `markAsAnalyzed(roomId, messageIds)`: load the cache; if absent,
return without writing (`if (!cache) return;` — no file is created);
otherwise union the ids and persist. -/
def markAsAnalyzed (prev : Option MessageCache) (now : List Nat)
    (messageIds : List (List Nat)) : Option MessageCache :=
  match prev with
  | none => none
  | some cache =>
      some { cache with
        analyzedMessageIds := dedupPreserve (cache.analyzedMessageIds ++ messageIds)
        lastUpdated := now }

/-! ## Classification result validation (`src/claude/analyzer.ts`)

Both `analyzeBatch` (lines 230–249) and `analyzeRealtime` (lines
356–381) run the same per-item loop after `JSON.parse`: a payload is a
single object or an array of objects; an item is dropped (with a
warning) unless both `item.versatility` and `item.category` are truthy;
a retained item is spread into a record whose `message_id` and `date`
are overwritten from the caller-built correlation maps, never taken from
the model's echo.  The embedding starts at the successfully-parsed
payload (the JSON/code-fence extraction in front produces exactly this
item list). -/

/-- A parsed candidate object.  `category`/`versatility` are absent
(`none`) or a string; the model may also echo `message_id`/`date`. -/
structure RawItem where
  category : Option (List Nat)
  versatility : Option (List Nat)
  title : List Nat
  tags : List (List Nat)
  formatted_content : List Nat
  echoed_message_id : Option (List Nat)
  echoed_date : Option (List Nat)
deriving DecidableEq, Repr

/-- JS truthiness of an optional string field: `undefined` and `""` are
falsy, every non-empty string is truthy. -/
def jsFalsy (v : Option (List Nat)) : Bool :=
  match v with
  | none => true
  | some s => s.isEmpty

structure AnalyzedMessage where
  message_id : List Nat
  category : List Nat
  versatility : List Nat
  title : List Nat
  tags : List (List Nat)
  date : List Nat
  formatted_content : List Nat
deriving DecidableEq, Repr

/-- The enrichment of one retained item,
`{...item, message_id: messageId, date: date}`: the spread copies the
item's fields, then the explicit `message_id`/`date` overwrite discards
any values the model echoed. -/
def enrichItem (item : RawItem) (messageId date : List Nat) : AnalyzedMessage :=
  { message_id := messageId
    category := item.category.getD []
    versatility := item.versatility.getD []
    title := item.title
    tags := item.tags
    date := date
    formatted_content := item.formatted_content }

/-- The validation/enrichment loop: items failing
`!item.versatility || !item.category` are dropped (warned, not fatal),
survivors are enriched with the correlation map's `messageId`/`date`. -/
def validateAndTag : List RawItem → List Nat → List Nat → List AnalyzedMessage
  | [], _, _ => []
  | item :: items, messageId, date =>
      if jsFalsy item.versatility || jsFalsy item.category then
        validateAndTag items messageId date
      else
        enrichItem item messageId date :: validateAndTag items messageId date

/-! ## Analysis result cache (`src/cache/messages.ts`, lines 176–278) -/

structure AnalysisCache where
  roomId : List Nat
  lastUpdated : List Nat
  model : Option (List Nat)
  results : List AnalyzedMessage
deriving DecidableEq, Repr

/-- `mergeAnalysisResults(existing, newResults)`: fill a `Map` keyed by
`message_id` with the existing records then the new ones (`Map.set`
overwrites in place, so the new records win on conflict), and return the
values in map insertion order. -/
def mergeAnalysisResults (existing newResults : List AnalyzedMessage) :
    List AnalyzedMessage :=
  (((existing ++ newResults).foldl
      (fun m r => jsRecordSet m r.message_id r) []).map (·.2))

/-- `loadAnalysisResults(roomId)`: the stored records, or `[]` when the
file is absent. -/
def loadAnalysisResults (st : Option AnalysisCache) : List AnalyzedMessage :=
  (st.map (·.results)).getD []

/-- `saveAnalysisResults(roomId, results, model?)`: merge the incoming
records over the loaded ones and persist the merged set with the model
metadata and a fresh timestamp. -/
def saveAnalysisResults (st : Option AnalysisCache) (roomId now : List Nat)
    (results : List AnalyzedMessage) (model : Option (List Nat)) : AnalysisCache :=
  { roomId := roomId
    lastUpdated := now
    model := model
    results := mergeAnalysisResults (loadAnalysisResults st) results }

/-! ## Team profiles (`src/team/profiles.ts`) and speaker map
(`src/cache/speakerMap.ts`) -/

inductive TeamRole where
  | senior
  | member
  | junior
deriving DecidableEq, Repr

structure ResolvedRole where
  role : TeamRole
  roleLabel : List Nat
deriving DecidableEq, Repr

/-- `ROLE_LABELS`. -/
def roleLabelOf : TeamRole → List Nat
  | .senior => jsUnits "Senior"
  | .member => jsUnits "Member"
  | .junior => jsUnits "Junior"

structure TeamProfile where
  name : List Nat
  role : TeamRole
deriving DecidableEq, Repr

/-- `TeamProfileManager.resolveRole(accountId)`: look the stringified id
up in the profile table; an unregistered account defaults to `member`.
The profile table is the `Map<string, TeamProfile>` loaded from config,
modelled as an assoc list keyed by the decimal id string. -/
def resolveRole (profiles : List (List Nat × TeamProfile)) (accountId : Int) : ResolvedRole :=
  let key := jsUnits (toString accountId)
  let role := ((jsRecordGet profiles key).map (·.role)).getD .member
  { role := role, roleLabel := roleLabelOf role }

structure SpeakerInfo where
  account_id : Int
  speaker_name : List Nat
  speaker_role : Option TeamRole
deriving DecidableEq, Repr

structure SpeakerMapCache where
  roomId : List Nat
  lastUpdated : List Nat
  speakers : List (List Nat × SpeakerInfo)
deriving DecidableEq, Repr

/-- The entry `SpeakerMapManager.save` builds for one message:
`{account_id, speaker_name, speaker_role: resolved?.role}` where
`resolved := roleResolver?.(msg.account.account_id)`.  With no resolver
supplied, the optional chaining short-circuits to `undefined` and the
stored `speaker_role` is `undefined` (`none`), not `"member"`. -/
def speakerInfoOf (roleResolver : Option (Int → ResolvedRole))
    (msg : ChatworkMessage) : SpeakerInfo :=
  { account_id := msg.account.account_id
    speaker_name := msg.account.name
    speaker_role := roleResolver.map (fun f => (f msg.account.account_id).role) }

/-- The `newSpeakers` object built by `SpeakerMapManager.save`: for each
message, `newSpeakers[msg.message_id] = speakerInfoOf …`. -/
def buildNewSpeakers (messages : List ChatworkMessage)
    (roleResolver : Option (Int → ResolvedRole)) : List (List Nat × SpeakerInfo) :=
  messages.foldl
    (fun m msg => jsRecordSet m msg.message_id (speakerInfoOf roleResolver msg)) []

/-- `SpeakerMapManager.save(roomId, messages, roleResolver?)`: build the
new mapping, merge it over the existing one with the object spread
`{...existing?.speakers, ...newSpeakers}` (incoming entries overwrite on
key conflict), and persist. -/
def speakerMapSave (prev : Option SpeakerMapCache) (roomId now : List Nat)
    (messages : List ChatworkMessage) (roleResolver : Option (Int → ResolvedRole)) :
    SpeakerMapCache :=
  let newSpeakers := buildNewSpeakers messages roleResolver
  let merged := newSpeakers.foldl (fun m p => jsRecordSet m p.1 p.2)
    ((prev.map (·.speakers)).getD [])
  { roomId := roomId, lastUpdated := now, speakers := merged }

/-! ## Helper lemmas: strings -/

theorem jsTrim_length_le (s : List Nat) : (jsTrim s).length ≤ s.length := by
  unfold jsTrim
  calc ((s.dropWhile isJsWhitespaceUnit).reverse.dropWhile isJsWhitespaceUnit).reverse.length
      = ((s.dropWhile isJsWhitespaceUnit).reverse.dropWhile isJsWhitespaceUnit).length := by
        simp
    _ ≤ (s.dropWhile isJsWhitespaceUnit).reverse.length :=
        (List.dropWhile_sublist _).length_le
    _ = (s.dropWhile isJsWhitespaceUnit).length := by simp
    _ ≤ s.length := (List.dropWhile_sublist _).length_le

theorem jsLastIndexOf_lt_length (s : List Nat) (u : Nat) :
    jsLastIndexOf s u < (s.length : Int) := by
  unfold jsLastIndexOf
  cases hs : s.reverse.findIdx? (· == u) with
  | none =>
      simp only []
      omega
  | some i =>
      simp only []
      have hne : s ≠ [] := by
        intro h
        subst h
        simp at hs
      have hlen : 1 ≤ s.length := by
        cases s with
        | nil => exact absurd rfl hne
        | cons a l => simp
      have : (s.length - 1 - i : Nat) ≤ s.length - 1 := Nat.sub_le _ _
      omega

/-! ## Helper lemmas: first-occurrence deduplication -/

theorem mem_dedupStep {acc : List (List Nat)} {x y : List Nat} :
    y ∈ dedupStep acc x ↔ y ∈ acc ∨ y = x := by
  unfold dedupStep
  by_cases h : acc.contains x
  · simp only [h, if_true]
    constructor
    · exact Or.inl
    · rintro (hy | rfl)
      · exact hy
      · exact List.elem_iff.mp h
  · simp only [h]
    simp

theorem mem_dedupFold (l : List (List Nat)) :
    ∀ (acc : List (List Nat)) (y : List Nat),
      y ∈ l.foldl dedupStep acc ↔ y ∈ acc ∨ y ∈ l := by
  induction l with
  | nil => simp
  | cons x l ih =>
      intro acc y
      rw [List.foldl_cons, ih]
      rw [mem_dedupStep]
      simp [or_assoc]

theorem mem_dedupPreserve {l : List (List Nat)} {y : List Nat} :
    y ∈ dedupPreserve l ↔ y ∈ l := by
  unfold dedupPreserve
  rw [mem_dedupFold]
  simp

theorem dedupFold_eq_self (l : List (List Nat)) :
    ∀ acc : List (List Nat), (∀ x ∈ l, x ∈ acc) → l.foldl dedupStep acc = acc := by
  induction l with
  | nil => intro acc _; rfl
  | cons x l ih =>
      intro acc h
      rw [List.foldl_cons]
      have hx : dedupStep acc x = acc := by
        unfold dedupStep
        rw [if_pos (List.elem_iff.mpr (h x (by simp)))]
      rw [hx]
      exact ih acc (fun z hz => h z (by simp [hz]))

theorem dedupFold_nodup (l : List (List Nat)) :
    ∀ acc : List (List Nat), acc.Nodup → (l.foldl dedupStep acc).Nodup := by
  induction l with
  | nil => intro acc h; exact h
  | cons x l ih =>
      intro acc h
      rw [List.foldl_cons]
      apply ih
      unfold dedupStep
      by_cases hc : acc.contains x
      · rw [if_pos hc]; exact h
      · rw [if_neg hc]
        have hx : x ∉ acc := fun hmem => hc (List.elem_iff.mpr hmem)
        simp [List.nodup_append, h, hx]

theorem dedupPreserve_nodup (l : List (List Nat)) : (dedupPreserve l).Nodup :=
  dedupFold_nodup l [] List.nodup_nil

theorem dedupFold_append_eq (l : List (List Nat)) :
    ∀ acc : List (List Nat), l.Nodup → (∀ x ∈ l, x ∉ acc) →
      l.foldl dedupStep acc = acc ++ l := by
  induction l with
  | nil => intro acc _ _; simp
  | cons x l ih =>
      intro acc h hdisj
      rw [List.foldl_cons]
      have hx : dedupStep acc x = acc ++ [x] := by
        unfold dedupStep
        rw [if_neg (fun hc => hdisj x (by simp) (List.elem_iff.mp hc))]
      rw [hx, ih (acc ++ [x]) (List.Nodup.of_cons h) ?_]
      · simp
      · intro z hz
        simp only [List.mem_append, List.mem_singleton]
        rintro (hzacc | rfl)
        · exact hdisj z (by simp [hz]) hzacc
        · exact (List.nodup_cons.mp h).1 hz

theorem dedupPreserve_eq_self_of_nodup {l : List (List Nat)} (h : l.Nodup) :
    dedupPreserve l = l := by
  unfold dedupPreserve
  rw [dedupFold_append_eq l [] h (by simp)]
  simp

/-- The union step of `save`/`markAsAnalyzed` is stable under repeating
the same incoming ids. -/
theorem dedupPreserve_union_idem (a b : List (List Nat)) :
    dedupPreserve (dedupPreserve (a ++ b) ++ b) = dedupPreserve (a ++ b) := by
  show List.foldl dedupStep [] (dedupPreserve (a ++ b) ++ b) = dedupPreserve (a ++ b)
  rw [List.foldl_append]
  have h1 : List.foldl dedupStep [] (dedupPreserve (a ++ b)) = dedupPreserve (a ++ b) :=
    dedupPreserve_eq_self_of_nodup (dedupPreserve_nodup (a ++ b))
  rw [h1]
  exact dedupFold_eq_self b _ (fun x hx =>
    mem_dedupPreserve.mpr (by simp [hx]))

/-! ## Helper lemmas: JS `Record`/`Map` assignment -/

section JsRecordLemmas

variable {K V : Type} [DecidableEq K]

theorem find?_map_update_self (m : List (K × V)) (k : K) (v : V)
    (h : m.any (fun p => decide (p.1 = k)) = true) :
    (m.map (fun p => if p.1 = k then (k, v) else p)).find?
      (fun p => decide (p.1 = k)) = some (k, v) := by
  induction m with
  | nil => simp at h
  | cons q m ih =>
      by_cases hq : q.1 = k
      · simp [List.find?, hq]
      · have h' : m.any (fun p => decide (p.1 = k)) = true := by
          simp only [List.any_cons, hq, decide_False, Bool.false_or] at h
          exact h
        simp [List.find?, hq, ih h']

theorem find?_map_update_ne (m : List (K × V)) (k : K) (v : V) {k' : K}
    (h : k' ≠ k) :
    (m.map (fun p => if p.1 = k then (k, v) else p)).find?
      (fun p => decide (p.1 = k')) = m.find? (fun p => decide (p.1 = k')) := by
  induction m with
  | nil => rfl
  | cons q m ih =>
      rw [List.map_cons]
      by_cases hq : q.1 = k
      · have e1 : (if q.1 = k then (k, v) else q) = (k, v) := if_pos hq
        have d1 : ¬ (((k, v) : K × V).1 = k') := fun he => h he.symm
        have d2 : ¬ (q.1 = k') := fun he => h ((hq.symm.trans he).symm)
        rw [e1]
        simp only [List.find?_cons, d1, d2, decide_False]
        exact ih
      · have e1 : (if q.1 = k then (k, v) else q) = q := if_neg hq
        rw [e1]
        by_cases hq' : q.1 = k'
        · simp only [List.find?_cons, hq', decide_True]
        · simp only [List.find?_cons, hq', decide_False]
          exact ih

theorem jsRecordGet_set_self (m : List (K × V)) (k : K) (v : V) :
    jsRecordGet (jsRecordSet m k v) k = some v := by
  unfold jsRecordSet jsRecordGet
  by_cases h : m.any (fun p => decide (p.1 = k)) = true
  · rw [if_pos h, find?_map_update_self m k v h]
    rfl
  · rw [if_neg h, List.find?_append]
    have hnone : m.find? (fun p => decide (p.1 = k)) = none := by
      apply List.find?_eq_none.mpr
      intro p hp
      simp only [decide_eq_true_eq]
      intro hpk
      exact h (List.any_eq_true.mpr ⟨p, hp, by simp [hpk]⟩)
    simp [hnone]

theorem jsRecordGet_set_ne (m : List (K × V)) (k : K) (v : V) {k' : K}
    (h : k' ≠ k) :
    jsRecordGet (jsRecordSet m k v) k' = jsRecordGet m k' := by
  unfold jsRecordSet jsRecordGet
  by_cases hany : m.any (fun p => decide (p.1 = k)) = true
  · rw [if_pos hany, find?_map_update_ne m k v h]
  · rw [if_neg hany, List.find?_append]
    have hone : List.find? (fun p => decide (p.1 = k')) [(k, v)] = none := by
      apply List.find?_eq_none.mpr
      intro p hp
      simp only [List.mem_singleton] at hp
      subst hp
      simp only [decide_eq_true_eq]
      exact fun he => h he.symm
    cases hm : m.find? (fun p => decide (p.1 = k')) <;> simp [hone]

theorem jsRecordSet_keys (m : List (K × V)) (k : K) (v : V) :
    (jsRecordSet m k v).map Prod.fst =
      if k ∈ m.map Prod.fst then m.map Prod.fst else m.map Prod.fst ++ [k] := by
  unfold jsRecordSet
  have hiff : (m.any (fun p => decide (p.1 = k)) = true) ↔ k ∈ m.map Prod.fst := by
    rw [List.any_eq_true]
    constructor
    · rintro ⟨p, hp, hpk⟩
      simp only [decide_eq_true_eq] at hpk
      exact List.mem_map.mpr ⟨p, hp, hpk⟩
    · rintro hk
      obtain ⟨p, hp, hpk⟩ := List.mem_map.mp hk
      exact ⟨p, hp, by simp [hpk]⟩
  by_cases h : m.any (fun p => decide (p.1 = k)) = true
  · rw [if_pos h, if_pos (hiff.mp h), List.map_map]
    apply List.map_congr_left
    intro p _
    by_cases hp : p.1 = k <;> simp [hp]
  · rw [if_neg h, if_neg (fun hk => h (hiff.mpr hk))]
    simp

theorem jsRecordSet_keys_nodup {m : List (K × V)} (k : K) (v : V)
    (h : (m.map Prod.fst).Nodup) : ((jsRecordSet m k v).map Prod.fst).Nodup := by
  rw [jsRecordSet_keys]
  by_cases hk : k ∈ m.map Prod.fst
  · rw [if_pos hk]; exact h
  · rw [if_neg hk]
    simp [List.nodup_append, h, hk]

theorem mem_jsRecordSet {m : List (K × V)} {k : K} {v : V} {p : K × V}
    (hp : p ∈ jsRecordSet m k v) : p ∈ m ∨ p = (k, v) := by
  unfold jsRecordSet at hp
  by_cases h : m.any (fun p => decide (p.1 = k)) = true
  · rw [if_pos h] at hp
    obtain ⟨q, hq, hqe⟩ := List.mem_map.mp hp
    by_cases hqk : q.1 = k
    · right; rw [← hqe]; simp [hqk]
    · left; rw [← hqe]; simpa [hqk] using hq
  · rw [if_neg h] at hp
    rcases List.mem_append.mp hp with h1 | h1
    · exact Or.inl h1
    · exact Or.inr (by simpa using h1)

/-- Reading a key from a record built by a sequence of assignments
(`{...acc, ...new}` or repeated `Map.set`): the last assignment of that
key in `new` wins, falling back to `acc`. -/
theorem jsRecordFold_get (new : List (K × V)) :
    ∀ (acc : List (K × V)) (k : K),
      jsRecordGet (new.foldl (fun m p => jsRecordSet m p.1 p.2) acc) k
        = ((new.reverse.find? (fun p => decide (p.1 = k))).map Prod.snd).or
            (jsRecordGet acc k) := by
  induction new with
  | nil => intro acc k; simp
  | cons q rest ih =>
      intro acc k
      rw [List.foldl_cons, ih]
      rw [List.reverse_cons, List.find?_append]
      cases hrest : rest.reverse.find? (fun p => decide (p.1 = k)) with
      | some p => simp
      | none =>
          simp only [Option.none_or]
          by_cases hk : q.1 = k
          · have h1 : jsRecordGet (jsRecordSet acc q.1 q.2) k = some q.2 := by
              rw [← hk]; exact jsRecordGet_set_self acc q.1 q.2
            have h2 : List.find? (fun p => decide (p.1 = k)) [q] = some q := by
              simp [List.find?, hk]
            simp [h1, h2]
          · have h1 : jsRecordGet (jsRecordSet acc q.1 q.2) k = jsRecordGet acc k :=
              jsRecordGet_set_ne acc q.1 q.2 (fun he => hk he.symm)
            have h2 : List.find? (fun p => decide (p.1 = k)) [q] = none := by
              simp [List.find?, hk]
            simp [h1, h2]

theorem jsRecordFold_keys_nodup (new : List (K × V)) :
    ∀ acc : List (K × V), (acc.map Prod.fst).Nodup →
      (((new.foldl (fun m p => jsRecordSet m p.1 p.2) acc)).map Prod.fst).Nodup := by
  induction new with
  | nil => intro acc h; exact h
  | cons q rest ih =>
      intro acc h
      rw [List.foldl_cons]
      exact ih _ (jsRecordSet_keys_nodup q.1 q.2 h)

theorem jsRecordFold_forall (new : List (K × V)) (P : K × V → Prop) :
    ∀ acc : List (K × V), (∀ p ∈ acc, P p) → (∀ p ∈ new, P p) →
      ∀ p ∈ new.foldl (fun m p => jsRecordSet m p.1 p.2) acc, P p := by
  induction new with
  | nil => intro acc hacc _ p hp; exact hacc p hp
  | cons q rest ih =>
      intro acc hacc hnew p hp
      rw [List.foldl_cons] at hp
      refine ih _ ?_ (fun r hr => hnew r (by simp [hr])) p hp
      intro r hr
      rcases mem_jsRecordSet hr with h1 | h1
      · exact hacc r h1
      · rw [h1]
        have : (q.1, q.2) = q := rfl
        rw [this]
        exact hnew q (by simp)

theorem find?_reverse_of_nodup_keys (l : List (K × V)) (k : K)
    (h : (l.map Prod.fst).Nodup) :
    l.reverse.find? (fun p => decide (p.1 = k)) =
      l.find? (fun p => decide (p.1 = k)) := by
  induction l with
  | nil => rfl
  | cons q l ih =>
      rw [List.map_cons, List.nodup_cons] at h
      rw [List.reverse_cons, List.find?_append]
      by_cases hq : q.1 = k
      · have hnone : l.reverse.find? (fun p => decide (p.1 = k)) = none := by
          apply List.find?_eq_none.mpr
          intro p hp
          simp only [decide_eq_true_eq]
          intro hpk
          exact h.1 (List.mem_map.mpr ⟨p, List.mem_reverse.mp hp, by rw [hpk, ← hq]⟩)
        rw [hnone, Option.none_or]
        simp only [List.find?_cons, hq, decide_True]
      · have h2 : List.find? (fun p => decide (p.1 = k)) [q] = none := by
          apply List.find?_eq_none.mpr
          intro p hp
          simp only [List.mem_singleton] at hp
          subst hp
          simp only [decide_eq_true_eq]
          exact hq
        rw [ih h.2, h2, Option.or_none]
        simp only [List.find?_cons, hq, decide_False]

end JsRecordLemmas

/-! ## Helper lemmas: stable sort by `send_time`

JavaScript's `Array.prototype.sort` is stable; the embedded
`List.insertionSort bySendTimeDesc` is stable as well, which the
`sendTimeClass` lemmas below make precise: sorting does not change the
subsequence of elements sharing one `send_time`, and a sorted list is
uniquely determined by those subsequences. -/

/-- The subsequence of messages with a given `send_time`. -/
def sendTimeClass (t : Int) (l : List ChatworkMessage) : List ChatworkMessage :=
  l.filter (fun x => x.send_time = t)

theorem sendTimeClass_cons (t : Int) (a : ChatworkMessage) (l : List ChatworkMessage) :
    sendTimeClass t (a :: l) =
      if a.send_time = t then a :: sendTimeClass t l else sendTimeClass t l := by
  unfold sendTimeClass
  by_cases h : a.send_time = t <;> simp [List.filter_cons, h]

theorem sendTimeClass_append (t : Int) (l₁ l₂ : List ChatworkMessage) :
    sendTimeClass t (l₁ ++ l₂) = sendTimeClass t l₁ ++ sendTimeClass t l₂ := by
  unfold sendTimeClass
  exact List.filter_append _ _

theorem sendTimeClass_orderedInsert (t : Int) (a : ChatworkMessage) :
    ∀ l : List ChatworkMessage,
      sendTimeClass t (List.orderedInsert bySendTimeDesc a l)
        = if a.send_time = t then a :: sendTimeClass t l else sendTimeClass t l := by
  intro l
  induction l with
  | nil =>
      rw [List.orderedInsert, sendTimeClass_cons]
  | cons b l ih =>
      rw [List.orderedInsert]
      by_cases hr : bySendTimeDesc a b
      · rw [if_pos hr, sendTimeClass_cons]
      · rw [if_neg hr, sendTimeClass_cons, ih]
        have hlt : a.send_time < b.send_time := by
          unfold bySendTimeDesc at hr
          omega
        by_cases hat : a.send_time = t
        · have hbt : ¬ (b.send_time = t) := by omega
          rw [if_pos hat, if_neg hbt, sendTimeClass_cons, if_neg hbt, if_pos hat]
        · rw [sendTimeClass_cons]
          simp only [hat, if_false, ite_false]

theorem sendTimeClass_insertionSort (t : Int) :
    ∀ l : List ChatworkMessage,
      sendTimeClass t (List.insertionSort bySendTimeDesc l) = sendTimeClass t l := by
  intro l
  induction l with
  | nil => rfl
  | cons a l ih =>
      rw [List.insertionSort, sendTimeClass_orderedInsert, ih, sendTimeClass_cons]

theorem sorted_head_send_time {h : ChatworkMessage} {tl : List ChatworkMessage}
    (hs : List.Sorted bySendTimeDesc (h :: tl)) :
    ∀ x ∈ h :: tl, x.send_time ≤ h.send_time := by
  intro x hx
  rcases List.mem_cons.mp hx with rfl | hx
  · exact le_refl _
  · exact (List.pairwise_cons.mp hs).1 x hx

/-- A list sorted by `send_time` descending is determined by its
`send_time` classes: the stable-sort uniqueness argument. -/
theorem sorted_eq_of_sendTimeClass :
    ∀ l₁ l₂ : List ChatworkMessage, List.Sorted bySendTimeDesc l₁ →
      List.Sorted bySendTimeDesc l₂ →
      (∀ t, sendTimeClass t l₁ = sendTimeClass t l₂) → l₁ = l₂ := by
  intro l₁
  induction l₁ with
  | nil =>
      intro l₂ _ _ hcls
      cases l₂ with
      | nil => rfl
      | cons h2 t2 =>
          have hc := hcls h2.send_time
          rw [sendTimeClass_cons, if_pos rfl] at hc
          exact absurd hc (by simp [sendTimeClass])
  | cons h1 t1 ih =>
      intro l₂ hs1 hs2 hcls
      cases l₂ with
      | nil =>
          have hc := hcls h1.send_time
          rw [sendTimeClass_cons, if_pos rfl] at hc
          exact absurd hc (by simp [sendTimeClass])
      | cons h2 t2 =>
          have hkey : h1.send_time = h2.send_time := by
            have hc1 := hcls h1.send_time
            rw [sendTimeClass_cons, if_pos rfl] at hc1
            have hmem1 : h1 ∈ sendTimeClass h1.send_time (h2 :: t2) := by
              rw [← hc1]; exact List.mem_cons_self _ _
            have h1in : h1 ∈ h2 :: t2 := (List.mem_filter.mp hmem1).1
            have hle1 : h1.send_time ≤ h2.send_time :=
              sorted_head_send_time hs2 h1 h1in
            have hc2 := hcls h2.send_time
            rw [sendTimeClass_cons (a := h2), if_pos rfl] at hc2
            have hmem2 : h2 ∈ sendTimeClass h2.send_time (h1 :: t1) := by
              rw [hc2]; exact List.mem_cons_self _ _
            have h2in : h2 ∈ h1 :: t1 := (List.mem_filter.mp hmem2).1
            have hle2 : h2.send_time ≤ h1.send_time :=
              sorted_head_send_time hs1 h2 h2in
            omega
          have hc := hcls h1.send_time
          rw [sendTimeClass_cons, if_pos rfl, sendTimeClass_cons,
            if_pos hkey.symm] at hc
          have hhead : h1 = h2 := (List.cons.injEq _ _ _ _ ▸ hc).1
          have htail_cls : ∀ t, sendTimeClass t t1 = sendTimeClass t t2 := by
            intro t
            by_cases hth : h1.send_time = t
            · have := hc
              rw [List.cons.injEq] at this
              exact hth ▸ this.2
            · have hc' := hcls t
              rw [sendTimeClass_cons, if_neg hth, sendTimeClass_cons,
                if_neg (by rw [← hkey]; exact hth)] at hc'
              exact hc'
          have htail : t1 = t2 :=
            ih t2 (List.Sorted.of_cons hs1) (List.Sorted.of_cons hs2) htail_cls
          rw [hhead, htail]

theorem sendTimeClass_length_le_one {l : List ChatworkMessage}
    (h : l.Pairwise (fun a b => a.send_time ≠ b.send_time)) (t : Int) :
    (sendTimeClass t l).length ≤ 1 := by
  induction l with
  | nil => simp [sendTimeClass]
  | cons a l ih =>
      rw [sendTimeClass_cons]
      rcases List.pairwise_cons.mp h with ⟨ha, hl⟩
      by_cases hat : a.send_time = t
      · rw [if_pos hat]
        have hnil : sendTimeClass t l = [] := by
          unfold sendTimeClass
          apply List.filter_eq_nil_iff.mpr
          intro x hx
          simp only [decide_eq_true_eq]
          intro hxt
          exact ha x hx (by omega)
        rw [hnil]
        simp
      · rw [if_neg hat]
        exact ih hl

theorem sendTimeClass_eq_of_perm_of_le_one {F1 F2 : List ChatworkMessage}
    (hp : List.Perm F1 F2)
    (hlen : ∀ t, (sendTimeClass t F1).length ≤ 1) (t : Int) :
    sendTimeClass t F1 = sendTimeClass t F2 := by
  have hcp : List.Perm (sendTimeClass t F1) (sendTimeClass t F2) := hp.filter _
  have hl1 := hlen t
  cases h1 : sendTimeClass t F1 with
  | nil =>
      rw [h1] at hcp
      exact (hcp.symm.eq_nil).symm
  | cons x xs =>
      rw [h1] at hcp hl1
      have hxs : xs = [] := by
        cases xs with
        | nil => rfl
        | cons y ys => simp at hl1
      subst hxs
      exact (List.perm_singleton.mp hcp.symm).symm

/-! ## Helper lemmas: `mergeMessages` -/

theorem mergeMessages_perm (E B : List ChatworkMessage) :
    List.Perm (mergeMessages E B)
      (E ++ B.filter (fun m => !((E.map (·.message_id)).contains m.message_id))) :=
  List.perm_insertionSort _ _

theorem mergeMessages_sorted (E B : List ChatworkMessage) :
    List.Sorted bySendTimeDesc (mergeMessages E B) :=
  List.sorted_insertionSort _ _

theorem mem_id_mergeMessages {E B : List ChatworkMessage} {b : ChatworkMessage}
    (hb : b ∈ B) :
    b.message_id ∈ (mergeMessages E B).map (·.message_id) := by
  have hperm := (mergeMessages_perm E B).map (·.message_id)
  rw [hperm.mem_iff, List.map_append, List.mem_append]
  by_cases hc : (E.map (·.message_id)).contains b.message_id
  · exact Or.inl (List.elem_iff.mp hc)
  · right
    apply List.mem_map.mpr
    refine ⟨b, List.mem_filter.mpr ⟨hb, ?_⟩, rfl⟩
    have hfalse : (E.map (·.message_id)).contains b.message_id = false :=
      Bool.eq_false_iff.mpr hc
    rw [hfalse]
    rfl

theorem mergeMessages_idem (A B : List ChatworkMessage) :
    mergeMessages (mergeMessages A B) B = mergeMessages A B := by
  have hfilt : B.filter
      (fun m => !(((mergeMessages A B).map (·.message_id)).contains m.message_id)) = [] := by
    apply List.filter_eq_nil_iff.mpr
    intro b hb
    have hco : ((mergeMessages A B).map (·.message_id)).contains b.message_id = true :=
      List.elem_iff.mpr (mem_id_mergeMessages (E := A) hb)
    simp only [hco, Bool.not_true]
    exact Bool.false_ne_true
  have e1 : mergeMessages (mergeMessages A B) B
      = List.insertionSort bySendTimeDesc ((mergeMessages A B) ++ B.filter
          (fun m => !(((mergeMessages A B).map (·.message_id)).contains m.message_id))) := rfl
  rw [e1, hfilt, List.append_nil]
  exact (mergeMessages_sorted A B).insertionSort_eq

theorem mergeMessages_nodup_ids {A B : List ChatworkMessage}
    (hA : (A.map (·.message_id)).Nodup) (hB : (B.map (·.message_id)).Nodup) :
    ((mergeMessages A B).map (·.message_id)).Nodup := by
  have hperm := (mergeMessages_perm A B).map (·.message_id)
  rw [hperm.nodup_iff, List.map_append, List.nodup_append]
  refine ⟨hA, hB.sublist ((List.filter_sublist B).map _), ?_⟩
  intro x hxA hxF
  obtain ⟨b, hbf, rfl⟩ := List.mem_map.mp hxF
  have hpred := (List.mem_filter.mp hbf).2
  have hco : (A.map (·.message_id)).contains b.message_id = true := List.elem_iff.mpr hxA
  simp [hco] at hpred
  obtain ⟨x, hx, he⟩ := List.mem_map.mp hxA
  exact hpred x hx he

theorem mergeMessages_order_invariant (E B B' : List ChatworkMessage)
    (hperm : List.Perm B B')
    (hpw : (B.filter (fun m => !((E.map (·.message_id)).contains m.message_id))).Pairwise
      (fun a b => a.send_time ≠ b.send_time)) :
    mergeMessages E B = mergeMessages E B' := by
  have e1 : mergeMessages E B = List.insertionSort bySendTimeDesc
      (E ++ B.filter (fun m => !((E.map (·.message_id)).contains m.message_id))) := rfl
  have e2 : mergeMessages E B' = List.insertionSort bySendTimeDesc
      (E ++ B'.filter (fun m => !((E.map (·.message_id)).contains m.message_id))) := rfl
  rw [e1, e2]
  apply sorted_eq_of_sendTimeClass _ _ (List.sorted_insertionSort _ _)
    (List.sorted_insertionSort _ _)
  intro t
  rw [sendTimeClass_insertionSort, sendTimeClass_insertionSort,
    sendTimeClass_append, sendTimeClass_append]
  congr 1
  exact sendTimeClass_eq_of_perm_of_le_one (hperm.filter _)
    (sendTimeClass_length_le_one hpw) t

/-! ## Concrete fixtures for counterexamples and witnesses -/

def accAlice : MsgAccount :=
  { account_id := 1, name := jsUnits "Alice", avatar_image_url := jsUnits "" }

def accBob : MsgAccount :=
  { account_id := 2, name := jsUnits "Bob", avatar_image_url := jsUnits "" }

/-- Message id 1, sent at time 100. -/
def msgT1 : ChatworkMessage :=
  { message_id := jsUnits "1", account := accAlice,
    body := jsUnits "サンプル本文です。テスト用。", send_time := 100, update_time := 100 }

/-- Message id 2, sent at the same time 100 as `msgT1` (a sort tie). -/
def msgT2 : ChatworkMessage :=
  { message_id := jsUnits "2", account := accBob,
    body := jsUnits "別のサンプル本文です。", send_time := 100, update_time := 100 }

/-- Message id 3, sent at the distinct time 50. -/
def msgT3 : ChatworkMessage :=
  { message_id := jsUnits "3", account := accBob,
    body := jsUnits "三番目のサンプル本文。", send_time := 50, update_time := 50 }

/-! ## Claim C5 -/

/-- C5 counterexample: the claim also asserts "the result of repeated
merges contains no duplicate message ids" for arbitrary sequences, but
`mergeMessages` checks incoming ids only against the ids existing before
the call, so an incoming batch containing the same new id twice is
appended twice: `merge([], [m, m])` keeps both copies. -/
theorem C5_counterexample :
    ¬ ((mergeMessages [] [msgT1, msgT1]).map (·.message_id)).Nodup := by
  decide

/-- C5 (amended): `merge(merge(A,B), B) = merge(A,B)` holds for all
message sequences; the no-duplicate-id invariant holds provided `A` and
`B` each carry no internally duplicated id (as is the case for every
list the pipeline feeds to `merge`). -/
theorem C5_merge_idempotent_nodup :
    (∀ A B : List ChatworkMessage, mergeMessages (mergeMessages A B) B = mergeMessages A B)
    ∧ (∀ A B : List ChatworkMessage,
        (A.map (·.message_id)).Nodup → (B.map (·.message_id)).Nodup →
        ((mergeMessages A B).map (·.message_id)).Nodup) :=
  ⟨mergeMessages_idem, fun _ _ hA hB => mergeMessages_nodup_ids hA hB⟩

/-- C5 witness: the amended theorem applied at concrete inputs. -/
theorem C5_merge_idempotent_nodup_witness :
    mergeMessages (mergeMessages [msgT1] [msgT2]) [msgT2] = mergeMessages [msgT1] [msgT2]
    ∧ ((mergeMessages [msgT1] [msgT2]).map (·.message_id)).Nodup :=
  ⟨C5_merge_idempotent_nodup.1 [msgT1] [msgT2],
    C5_merge_idempotent_nodup.2 [msgT1] [msgT2] (by decide) (by decide)⟩

/-! ## Claim C6 -/

/-- C6 counterexample: `[msgT2, msgT1]` is a permutation of
`[msgT1, msgT2]` (two messages tied on `send_time`), yet merging them
into an empty store yields differently ordered results — the JS sort is
stable, so the order of incoming ties is preserved, and permuting the
incoming sequence does affect the final order. -/
theorem C6_counterexample :
    List.Perm [msgT2, msgT1] [msgT1, msgT2]
    ∧ mergeMessages [] [msgT1, msgT2] ≠ mergeMessages [] [msgT2, msgT1] := by
  constructor
  · exact List.Perm.swap msgT1 msgT2 []
  · decide

/-- C6 (amended): `merge` returns the union by id — it is a permutation
of `existing` plus the incoming messages with new ids — sorted by
`send_time` descending, deterministic (it is a function), and the order
of the incoming sequence does not affect the result **provided the
surviving incoming messages have pairwise distinct `send_time`s** (ties
between incoming messages are kept in incoming order by the stable
sort). -/
theorem C6_merge_union_sorted_order_invariance :
    (∀ E B : List ChatworkMessage, List.Sorted bySendTimeDesc (mergeMessages E B))
    ∧ (∀ E B : List ChatworkMessage,
        List.Perm (mergeMessages E B)
          (E ++ B.filter (fun m => !((E.map (·.message_id)).contains m.message_id))))
    ∧ (∀ E B B' : List ChatworkMessage, List.Perm B B' →
        (B.filter (fun m => !((E.map (·.message_id)).contains m.message_id))).Pairwise
          (fun a b => a.send_time ≠ b.send_time) →
        mergeMessages E B = mergeMessages E B') :=
  ⟨mergeMessages_sorted, mergeMessages_perm, mergeMessages_order_invariant⟩

/-- C6 witness: the amended theorem applied at concrete inputs with
distinct `send_time`s. -/
theorem C6_merge_union_sorted_order_invariance_witness :
    mergeMessages [] [msgT1, msgT3] = mergeMessages [] [msgT3, msgT1] :=
  C6_merge_union_sorted_order_invariance.2.2 [] [msgT1, msgT3] [msgT3, msgT1]
    (List.Perm.swap msgT3 msgT1 []) (by decide)

/-! ## Claim C1 -/

theorem truncate_tail_bound (body : List Nat) (N : Int)
    (hN : (truncationSuffix.length : Int) ≤ N) (c : Int)
    (hc : c ≤ N - (truncationSuffix.length : Int)) :
    ((jsTrim (body.take c.toNat) ++ truncationSuffix).length : Int) ≤ N := by
  have h1 : (body.take c.toNat).length ≤ c.toNat := List.length_take_le _ _
  have h2 : (jsTrim (body.take c.toNat)).length ≤ c.toNat :=
    le_trans (jsTrim_length_le _) h1
  rw [List.length_append]
  have h3 : (c.toNat : Int) ≤ N - (truncationSuffix.length : Int) := by
    by_cases hc0 : 0 ≤ c
    · rw [Int.toNat_of_nonneg hc0]; exact hc
    · push_neg at hc0
      have : c.toNat = 0 := Int.toNat_of_nonpos (le_of_lt hc0)
      rw [this]
      push_cast
      omega
  push_cast
  omega

/-- C1 counterexample: the truncation bound fails for positive bounds
smaller than the 7-code-unit suffix `…（以下省略）`: at `N = 1` and the
two-character body `"ab"`, `truncate` returns just the suffix, of length
`7 > 1`. -/
theorem C1_counterexample :
    (0 : Int) < 1 ∧ ¬ (((truncateMessage (jsUnits "ab") 1).1.length : Int) ≤ 1) := by
  decide

/-- C1 (amended): `len(truncate(body, N).body) ≤ N` holds whenever `N` is
at least the truncation suffix length (7 UTF-16 code units); the no-op
half — `truncate` returns `body` unchanged with `truncated = false`
whenever `len(body) ≤ N` — holds for every bound. -/
theorem C1_truncation_bound :
    ∀ (body : List Nat) (N : Int),
      ((truncationSuffix.length : Int) ≤ N →
        ((truncateMessage body N).1.length : Int) ≤ N)
      ∧ ((body.length : Int) ≤ N → truncateMessage body N = (body, false)) := by
  intro body N
  constructor
  · intro hN
    unfold truncateMessage
    by_cases hle : (body.length : Int) ≤ N
    · rw [if_pos hle]
      exact hle
    · rw [if_neg hle]
      simp only []
      set t : Int := N - (truncationSuffix.length : Int) with ht
      set tr : List Nat := body.take t.toNat with htr
      set lp : Int := max (max (jsLastIndexOf tr 0x3002) (jsLastIndexOf tr 0x0A))
        (jsLastIndexOf tr 0x3001) with hlp
      have ht0 : 0 ≤ t := by omega
      have hlp_lt : lp < (tr.length : Int) := by
        rw [hlp]
        exact max_lt (max_lt (jsLastIndexOf_lt_length tr 0x3002)
          (jsLastIndexOf_lt_length tr 0x0A)) (jsLastIndexOf_lt_length tr 0x3001)
      have htr_le : tr.length ≤ t.toNat := by
        rw [htr]; exact List.length_take_le _ _
      have htt : (t.toNat : Int) = t := Int.toNat_of_nonneg ht0
      by_cases hcut : 10 * lp > 7 * t
      · rw [if_pos hcut]
        apply truncate_tail_bound body N hN
        have : (tr.length : Int) ≤ (t.toNat : Int) := by exact_mod_cast htr_le
        omega
      · rw [if_neg hcut]
        exact truncate_tail_bound body N hN t (by omega)
  · intro h
    unfold truncateMessage
    rw [if_pos h]

/-- C1 witness: the amended theorem applied at `N = 10`. -/
theorem C1_truncation_bound_witness :
    ((truncationSuffix.length : Int) ≤ 10
      ∧ ((truncateMessage (jsUnits "こんにちは。これはテスト用の本文です") 10).1.length : Int) ≤ 10)
    ∧ (((jsUnits "短い文").length : Int) ≤ 10
      ∧ truncateMessage (jsUnits "短い文") 10 = (jsUnits "短い文", false)) :=
  ⟨⟨by decide,
      (C1_truncation_bound (jsUnits "こんにちは。これはテスト用の本文です") 10).1 (by decide)⟩,
    by decide,
    (C1_truncation_bound (jsUnits "短い文") 10).2 (by decide)⟩

/-! ## Claim C2 -/

/-- A 120-code-unit message that starts with the acknowledgement
`了解です。` but continues with content. -/
def bodyLong120 : List Nat := jsUnits "了解です。" ++ List.replicate 115 0x3042

/-- C2 counterexample: under the default config, `"了解です"` (4 UTF-16
code units after trimming) is indeed skipped, but with reason
`too_short (4 chars)` — the minimum-length check (`minLength = 10`) fires
before any boilerplate pattern is consulted — not with reason
`boilerplate_pattern` as the claim states. -/
theorem C2_counterexample :
    (shouldSkipMessage (jsUnits "了解です") DEFAULT_FILTER_CONFIG).skip = true
    ∧ ¬ ∃ p, (shouldSkipMessage (jsUnits "了解です") DEFAULT_FILTER_CONFIG).reason
        = some (.boilerplatePattern p) := by
  constructor
  · decide
  · rintro ⟨p, hp⟩
    rw [show (shouldSkipMessage (jsUnits "了解です") DEFAULT_FILTER_CONFIG).reason
        = some (.tooShort 4) from by decide] at hp
    simp at hp

set_option maxRecDepth 8000 in
/-- C2 (amended): `"了解です"` is skipped, but as `too_short` (its
trimmed length 4 is below `minLength = 10`); an acknowledgement whose
length lies in `[10, 50)` is skipped as `boilerplate_pattern`; no message
whose trimmed length is at or above the boilerplate threshold 50 is ever
skipped with a boilerplate reason — in particular a 120-unit message
embedding `了解です` is not skipped at all. -/
theorem C2_boilerplate_threshold :
    (shouldSkipMessage (jsUnits "了解です") DEFAULT_FILTER_CONFIG
        = { skip := true, reason := some (.tooShort 4) })
    ∧ (shouldSkipMessage (jsUnits "了解です。明日までに修正します") DEFAULT_FILTER_CONFIG
        = { skip := true, reason := some (.boilerplatePattern (.prefixLit (jsUnits "了解"))) })
    ∧ (∀ body : List Nat,
        DEFAULT_FILTER_CONFIG.boilerplateThreshold ≤ (jsTrim body).length →
        ∀ p, (shouldSkipMessage body DEFAULT_FILTER_CONFIG).reason
          ≠ some (.boilerplatePattern p))
    ∧ (shouldSkipMessage bodyLong120 DEFAULT_FILTER_CONFIG).skip = false := by
  refine ⟨by decide, by decide, ?_, by decide⟩
  intro body h p
  have hth : DEFAULT_FILTER_CONFIG.boilerplateThreshold = 50 := rfl
  have hmin : DEFAULT_FILTER_CONFIG.minLength = 10 := rfl
  rw [hth] at h
  unfold shouldSkipMessage
  have h10 : ¬ ((jsTrim body).length < DEFAULT_FILTER_CONFIG.minLength) := by
    rw [hmin]; omega
  rw [if_neg h10]
  cases hfind : DEFAULT_FILTER_CONFIG.noisePatterns.find?
      (fun q => jsTest q (jsTrim body)) with
  | some q => simp [hfind]
  | none =>
      have h50 : ¬ ((jsTrim body).length < DEFAULT_FILTER_CONFIG.boilerplateThreshold) := by
        rw [hth]; omega
      simp [hfind, if_neg h50]

set_option maxRecDepth 8000 in
/-- C2 witness: the threshold clause of the amended theorem applied to
the concrete 120-unit message. -/
theorem C2_boilerplate_threshold_witness :
    DEFAULT_FILTER_CONFIG.boilerplateThreshold ≤ (jsTrim bodyLong120).length
    ∧ (shouldSkipMessage bodyLong120 DEFAULT_FILTER_CONFIG).reason
        ≠ some (.boilerplatePattern (.prefixLit (jsUnits "了解"))) :=
  ⟨by decide,
    C2_boilerplate_threshold.2.2.1 bodyLong120 (by decide) (.prefixLit (jsUnits "了解"))⟩

/-! ## Claim C7 -/

/-- C7 counterexample: `save` persists exactly the message list it is
given (re-sorted, not deduplicated), so a single `save` call whose
argument repeats an id leaves two entries with that id in the cache. -/
theorem C7_counterexample :
    ¬ (((cacheSave none (jsUnits "9") (jsUnits "t") [msgT1, msgT1] none).messages.map
        (·.message_id)).Nodup) := by
  decide

/-- C7 (amended): after any sequence of `save` calls the persisted
message list is the last call's argument re-sorted by numeric id
descending (a permutation of it), so the cache holds at most one entry
per id exactly when that argument does; in particular every `save` whose
message list carries no duplicate ids (as produced by `mergeMessages`)
preserves the dedup invariant. -/
theorem C7_save_dedup :
    (∀ (prev : Option MessageCache) (roomId now : List Nat)
        (msgs : List ChatworkMessage) (aids : Option (List (List Nat))),
      List.Perm ((cacheSave prev roomId now msgs aids).messages) msgs)
    ∧ (∀ (prev : Option MessageCache) (roomId now : List Nat)
        (msgs : List ChatworkMessage) (aids : Option (List (List Nat))),
        (msgs.map (·.message_id)).Nodup →
        (((cacheSave prev roomId now msgs aids).messages).map (·.message_id)).Nodup) := by
  constructor
  · intro prev roomId now msgs aids
    have e : (cacheSave prev roomId now msgs aids).messages
        = List.insertionSort byMessageIdDesc msgs := rfl
    rw [e]
    exact List.perm_insertionSort _ _
  · intro prev roomId now msgs aids h
    have e : (cacheSave prev roomId now msgs aids).messages
        = List.insertionSort byMessageIdDesc msgs := rfl
    rw [e]
    exact ((List.perm_insertionSort byMessageIdDesc msgs).map (·.message_id)).nodup_iff.mpr h

/-- C7 witness: the amended theorem applied at a duplicate-free list. -/
theorem C7_save_dedup_witness :
    ((([msgT1, msgT2] : List ChatworkMessage).map (·.message_id)).Nodup)
    ∧ (((cacheSave none (jsUnits "9") (jsUnits "t") [msgT1, msgT2] none).messages.map
        (·.message_id)).Nodup) :=
  ⟨by decide, C7_save_dedup.2 none (jsUnits "9") (jsUnits "t") [msgT1, msgT2] none (by decide)⟩

/-! ## Claim C8 -/

/-- C8: `mark_as_analyzed` is an idempotent set-union update of the
analyzed-id set — repeating the call with the same ids changes nothing,
previously recorded ids are never lost, the new ids all land in the
set — and with no existing cache it returns without writing anything
(`none` in, `none` out: no exception, no file created). -/
theorem C8_markAsAnalyzed :
    (∀ (now : List Nat) (ids : List (List Nat)), markAsAnalyzed none now ids = none)
    ∧ (∀ (c : MessageCache) (now : List Nat) (ids : List (List Nat)),
        markAsAnalyzed (markAsAnalyzed (some c) now ids) now ids
          = markAsAnalyzed (some c) now ids)
    ∧ (∀ (c : MessageCache) (now : List Nat) (ids : List (List Nat)) (x : List Nat),
        x ∈ c.analyzedMessageIds →
        x ∈ ((markAsAnalyzed (some c) now ids).map (·.analyzedMessageIds)).getD [])
    ∧ (∀ (c : MessageCache) (now : List Nat) (ids : List (List Nat)) (x : List Nat),
        x ∈ ids →
        x ∈ ((markAsAnalyzed (some c) now ids).map (·.analyzedMessageIds)).getD []) := by
  refine ⟨fun _ _ => rfl, ?_, ?_, ?_⟩
  · intro c now ids
    simp only [markAsAnalyzed]
    rw [dedupPreserve_union_idem]
  · intro c now ids x hx
    simp only [markAsAnalyzed, Option.map_some, Option.getD_some]
    exact mem_dedupPreserve.mpr (List.mem_append.mpr (Or.inl hx))
  · intro c now ids x hx
    simp only [markAsAnalyzed, Option.map_some, Option.getD_some]
    exact mem_dedupPreserve.mpr (List.mem_append.mpr (Or.inr hx))

/-- A concrete persisted message cache. -/
def cacheFix : MessageCache :=
  { roomId := jsUnits "10", lastUpdated := jsUnits "t0", lastMessageId := none,
    messages := [], analyzedMessageIds := [jsUnits "1"] }

/-- C8 witness: the theorem applied at a concrete cache and id lists. -/
theorem C8_markAsAnalyzed_witness :
    jsUnits "1" ∈ cacheFix.analyzedMessageIds
    ∧ jsUnits "1" ∈ ((markAsAnalyzed (some cacheFix) (jsUnits "t1")
        [jsUnits "2"]).map (·.analyzedMessageIds)).getD [] :=
  ⟨by decide,
    C8_markAsAnalyzed.2.2.1 cacheFix (jsUnits "t1") [jsUnits "2"] (jsUnits "1") (by decide)⟩

/-! ## Claim C3 -/

theorem validateAndTag_eq (items : List RawItem) (mid d : List Nat) :
    validateAndTag items mid d
      = (items.filter (fun it => !(jsFalsy it.versatility || jsFalsy it.category))).map
          (fun item => enrichItem item mid d) := by
  induction items with
  | nil => rfl
  | cons it items ih =>
      rw [validateAndTag, List.filter_cons]
      by_cases hb : (jsFalsy it.versatility || jsFalsy it.category) = true
      · rw [if_pos hb, ih, hb]
        rfl
      · rw [if_neg hb]
        have hb' : (jsFalsy it.versatility || jsFalsy it.category) = false :=
          Bool.eq_false_iff.mpr hb
        rw [ih, hb']
        rfl

/-- A well-formed parsed item that also echoes (hallucinated)
`message_id`/`date` fields. -/
def itemGood : RawItem :=
  { category := some (jsUnits "実装ノウハウ"), versatility := some (jsUnits "high"),
    title := jsUnits "タイトル", tags := [jsUnits "WordPress"],
    formatted_content := jsUnits "整形済みの内容",
    echoed_message_id := some (jsUnits "999"), echoed_date := some (jsUnits "1999-01-01") }

/-- A parsed item missing `category`. -/
def itemNoCategory : RawItem :=
  { category := none, versatility := some (jsUnits "high"),
    title := jsUnits "別タイトル", tags := [],
    formatted_content := jsUnits "別の内容",
    echoed_message_id := none, echoed_date := none }

/-- C3: in the shared validation loop of `analyzeBatch`/`analyzeRealtime`,
every candidate lacking `category` or `versatility` is dropped (only the
record count shrinks — nothing fatal), every retained record carries the
correlation map's `message_id` and `date` (never the model's echo), and
the scenario payload — an array of two objects, one missing `category` —
yields exactly one record. -/
theorem C3_validation_enrichment :
    (∀ (items : List RawItem) (mid d : List Nat),
      ∀ r ∈ validateAndTag items mid d, r.message_id = mid ∧ r.date = d)
    ∧ (∀ (items : List RawItem) (mid d : List Nat),
        (validateAndTag items mid d).length
          = (items.filter (fun it => !(jsFalsy it.versatility || jsFalsy it.category))).length)
    ∧ (validateAndTag [itemGood, itemNoCategory] (jsUnits "77") (jsUnits "2025-04-01")
        = [enrichItem itemGood (jsUnits "77") (jsUnits "2025-04-01")]) := by
  refine ⟨?_, ?_, by decide⟩
  · intro items mid d r hr
    rw [validateAndTag_eq] at hr
    obtain ⟨item, _, rfl⟩ := List.mem_map.mp hr
    exact ⟨rfl, rfl⟩
  · intro items mid d
    rw [validateAndTag_eq, List.length_map]

/-- C3 witness: the enrichment clause applied to the scenario payload. -/
theorem C3_validation_enrichment_witness :
    enrichItem itemGood (jsUnits "77") (jsUnits "2025-04-01")
        ∈ validateAndTag [itemGood, itemNoCategory] (jsUnits "77") (jsUnits "2025-04-01")
    ∧ (enrichItem itemGood (jsUnits "77") (jsUnits "2025-04-01")).message_id = jsUnits "77"
    ∧ (enrichItem itemGood (jsUnits "77") (jsUnits "2025-04-01")).date = jsUnits "2025-04-01" :=
  ⟨by decide,
    C3_validation_enrichment.1 [itemGood, itemNoCategory] (jsUnits "77") (jsUnits "2025-04-01")
      (enrichItem itemGood (jsUnits "77") (jsUnits "2025-04-01")) (by decide)⟩

/-! ## Claim C4 -/

/-- Lookup of a record by `message_id`. -/
def recLookup (l : List AnalyzedMessage) (k : List Nat) : Option AnalyzedMessage :=
  l.find? (fun r => r.message_id = k)

theorem find?_congr_on {α : Type} (l : List α) (p q : α → Bool)
    (h : ∀ x ∈ l, p x = q x) : l.find? p = l.find? q := by
  induction l with
  | nil => rfl
  | cons a l ih =>
      rw [List.find?_cons, List.find?_cons, h a (by simp)]
      cases hq : q a with
      | true => rfl
      | false => exact ih (fun x hx => h x (by simp [hx]))

/-- The generalisation of `find?_reverse_of_nodup_keys` to an arbitrary
key projection. -/
theorem find?_reverse_of_nodup_key {α K : Type} [DecidableEq K] (key : α → K)
    (l : List α) (k : K) (h : (l.map key).Nodup) :
    l.reverse.find? (fun x => decide (key x = k))
      = l.find? (fun x => decide (key x = k)) := by
  induction l with
  | nil => rfl
  | cons q l ih =>
      rw [List.map_cons, List.nodup_cons] at h
      rw [List.reverse_cons, List.find?_append]
      by_cases hq : key q = k
      · have hnone : l.reverse.find? (fun x => decide (key x = k)) = none := by
          apply List.find?_eq_none.mpr
          intro p hp
          simp only [decide_eq_true_eq]
          intro hpk
          exact h.1 (List.mem_map.mpr ⟨p, List.mem_reverse.mp hp, by rw [hpk, ← hq]⟩)
        rw [hnone, Option.none_or]
        simp only [List.find?_cons, hq, decide_True]
      · have h2 : List.find? (fun x => decide (key x = k)) [q] = none := by
          apply List.find?_eq_none.mpr
          intro p hp
          simp only [List.mem_singleton] at hp
          subst hp
          simp only [decide_eq_true_eq]
          exact hq
        rw [ih h.2, h2, Option.or_none]
        simp only [List.find?_cons, hq, decide_False]

theorem jsRecordGet_isSome_of_mem_keys {K V : Type} [DecidableEq K]
    {m : List (K × V)} {k : K} (h : k ∈ m.map Prod.fst) :
    ∃ v, jsRecordGet m k = some v := by
  obtain ⟨p, hp, hpk⟩ := List.mem_map.mp h
  unfold jsRecordGet
  have hsome : (m.find? (fun p => decide (p.1 = k))).isSome := by
    rw [List.find?_isSome]
    exact ⟨p, hp, by simp [hpk]⟩
  obtain ⟨q, hq⟩ := Option.isSome_iff_exists.mp hsome
  exact ⟨q.2, by rw [hq]; rfl⟩

/-- The `Map`-building fold of `mergeAnalysisResults`, rewritten as the
generic pair fold so the `jsRecord` lemmas apply. -/
theorem analysisFold_eq (l : List AnalyzedMessage) (acc : List (List Nat × AnalyzedMessage)) :
    l.foldl (fun m r => jsRecordSet m r.message_id r) acc
      = (l.map (fun r => (r.message_id, r))).foldl (fun m p => jsRecordSet m p.1 p.2) acc := by
  rw [List.foldl_map]

theorem analysisFold_fst (l : List AnalyzedMessage) :
    ∀ p ∈ l.foldl (fun m r => jsRecordSet m r.message_id r) [], p.1 = p.2.message_id := by
  rw [analysisFold_eq]
  apply jsRecordFold_forall
  · intro p hp
    simp at hp
  · intro p hp
    obtain ⟨r, _, rfl⟩ := List.mem_map.mp hp
    rfl

theorem mergeAnalysisResults_nodup (a b : List AnalyzedMessage) :
    ((mergeAnalysisResults a b).map (·.message_id)).Nodup := by
  unfold mergeAnalysisResults
  rw [List.map_map]
  have hcongr : ((a ++ b).foldl (fun m r => jsRecordSet m r.message_id r) []).map
      ((fun r => r.message_id) ∘ Prod.snd)
      = ((a ++ b).foldl (fun m r => jsRecordSet m r.message_id r) []).map Prod.fst := by
    apply List.map_congr_left
    intro p hp
    exact (analysisFold_fst (a ++ b) p hp).symm
  rw [hcongr, analysisFold_eq]
  exact jsRecordFold_keys_nodup _ [] (by simp)

theorem recLookup_mergeAnalysisResults (a b : List AnalyzedMessage) (k : List Nat) :
    recLookup (mergeAnalysisResults a b) k
      = recLookup (b.reverse ++ a.reverse) k := by
  have h1 : recLookup (mergeAnalysisResults a b) k
      = ((((a ++ b).map (fun r => (r.message_id, r))).foldl
          (fun m p => jsRecordSet m p.1 p.2) []).find?
            (fun p => decide (p.1 = k))).map Prod.snd := by
    unfold mergeAnalysisResults recLookup
    rw [List.find?_map, ← analysisFold_eq]
    congr 1
    apply find?_congr_on
    intro p hp
    simp only [Function.comp]
    rw [analysisFold_fst (a ++ b) p hp]
  rw [h1]
  have h2 := jsRecordFold_get ((a ++ b).map (fun r => (r.message_id, r))) [] k
  have h3 : ((((a ++ b).map (fun r => (r.message_id, r))).foldl
      (fun m p => jsRecordSet m p.1 p.2) []).find?
        (fun p => decide (p.1 = k))).map Prod.snd
      = (((a ++ b).map (fun r => (r.message_id, r))).reverse.find?
          (fun p => decide (p.1 = k))).map Prod.snd := by
    have hnil : jsRecordGet ([] : List (List Nat × AnalyzedMessage)) k = none := rfl
    rw [hnil, Option.or_none] at h2
    exact h2
  rw [h3, ← List.map_reverse, List.find?_map, Option.map_map]
  have h5 : ((a ++ b).reverse.find?
      ((fun p => decide (p.1 = k)) ∘ (fun r : AnalyzedMessage => (r.message_id, r))))
      = (a ++ b).reverse.find? (fun r => decide (r.message_id = k)) := rfl
  have h6 : (Prod.snd ∘ (fun r : AnalyzedMessage => (r.message_id, r))) = id := rfl
  rw [h5, h6, Option.map_id]
  unfold recLookup
  rw [List.reverse_append]
  rfl

theorem recLookup_merge_right {a b : List AnalyzedMessage} {k : List Nat}
    (hb : (b.map (·.message_id)).Nodup) (hk : k ∈ b.map (·.message_id)) :
    recLookup (mergeAnalysisResults a b) k = recLookup b k := by
  rw [recLookup_mergeAnalysisResults]
  unfold recLookup
  rw [List.find?_append]
  have hrev : b.reverse.find? (fun r => decide (r.message_id = k))
      = b.find? (fun r => decide (r.message_id = k)) :=
    find?_reverse_of_nodup_key (·.message_id) b k hb
  have hsome : (b.find? (fun r => decide (r.message_id = k))).isSome := by
    rw [List.find?_isSome]
    obtain ⟨r, hr, hrk⟩ := List.mem_map.mp hk
    exact ⟨r, hr, by simp [hrk]⟩
  rw [hrev]
  obtain ⟨v, hv⟩ := Option.isSome_iff_exists.mp hsome
  rw [hv]
  rfl

/-- C4: merging analysis results is last-write-wins keyed by
`message_id`.  After two saves (starting from no cache) the loaded
results carry pairwise distinct `message_id`s, and every key of the
second save resolves to the second save's record — in particular every
overlapping key does. -/
theorem C4_result_merge_lww (r1 r2 : List AnalyzedMessage) (rid now1 now2 : List Nat)
    (model1 model2 : Option (List Nat)) :
    (((loadAnalysisResults (some (saveAnalysisResults
        (some (saveAnalysisResults none rid now1 r1 model1)) rid now2 r2 model2))).map
        (·.message_id)).Nodup)
    ∧ ((r2.map (·.message_id)).Nodup →
        ∀ k ∈ r2.map (·.message_id),
          recLookup (loadAnalysisResults (some (saveAnalysisResults
            (some (saveAnalysisResults none rid now1 r1 model1)) rid now2 r2 model2))) k
          = recLookup r2 k) := by
  have hload : loadAnalysisResults (some (saveAnalysisResults
      (some (saveAnalysisResults none rid now1 r1 model1)) rid now2 r2 model2))
      = mergeAnalysisResults (mergeAnalysisResults [] r1) r2 := rfl
  rw [hload]
  exact ⟨mergeAnalysisResults_nodup _ _, fun hb k hk => recLookup_merge_right hb hk⟩

/-- Analysis record with id 1 (first save). -/
def recA : AnalyzedMessage :=
  { message_id := jsUnits "1", category := jsUnits "実装ノウハウ",
    versatility := jsUnits "high", title := jsUnits "最初", tags := [],
    date := jsUnits "2025-01-01", formatted_content := jsUnits "旧内容" }

/-- Analysis record re-submitting id 1 with a different payload
(second save). -/
def recA2 : AnalyzedMessage :=
  { message_id := jsUnits "1", category := jsUnits "トラブル対応",
    versatility := jsUnits "medium", title := jsUnits "再分析", tags := [],
    date := jsUnits "2025-02-02", formatted_content := jsUnits "新内容" }

/-- C4 witness: the theorem applied at two overlapping concrete saves. -/
theorem C4_result_merge_lww_witness :
    (([recA2].map (·.message_id)).Nodup)
    ∧ recLookup (loadAnalysisResults (some (saveAnalysisResults
        (some (saveAnalysisResults none (jsUnits "7") (jsUnits "t1") [recA] none))
        (jsUnits "7") (jsUnits "t2") [recA2] none))) (jsUnits "1")
      = recLookup [recA2] (jsUnits "1") :=
  ⟨by decide,
    (C4_result_merge_lww [recA] [recA2] (jsUnits "7") (jsUnits "t1") (jsUnits "t2")
      none none).2 (by decide) (jsUnits "1") (by decide)⟩

/-! ## Claim C9 -/

theorem buildNewSpeakers_eq (msgs : List ChatworkMessage)
    (rr : Option (Int → ResolvedRole)) :
    buildNewSpeakers msgs rr
      = (msgs.map (fun msg => (msg.message_id, speakerInfoOf rr msg))).foldl
          (fun m p => jsRecordSet m p.1 p.2) [] := by
  unfold buildNewSpeakers
  rw [List.foldl_map]

theorem buildNewSpeakers_values (msgs : List ChatworkMessage)
    (rr : Option (Int → ResolvedRole)) (P : SpeakerInfo → Prop)
    (hP : ∀ msg ∈ msgs, P (speakerInfoOf rr msg)) :
    ∀ p ∈ buildNewSpeakers msgs rr, P p.2 := by
  rw [buildNewSpeakers_eq]
  apply jsRecordFold_forall
  · intro p hp
    simp at hp
  · intro p hp
    obtain ⟨msg, hmsg, rfl⟩ := List.mem_map.mp hp
    exact hP msg hmsg

theorem buildNewSpeakers_keys_nodup (msgs : List ChatworkMessage)
    (rr : Option (Int → ResolvedRole)) :
    ((buildNewSpeakers msgs rr).map Prod.fst).Nodup := by
  rw [buildNewSpeakers_eq]
  exact jsRecordFold_keys_nodup _ [] (by simp)

/-- C9 counterexample: `save` called without a role resolver stores
`speaker_role: undefined` (absent), not the default `"member"` the claim
asserts — the `"member"` default lives in `resolveRole`, which is never
consulted when no resolver is passed. -/
theorem C9_counterexample :
    jsRecordGet (speakerMapSave none (jsUnits "5") (jsUnits "t") [msgT1] none).speakers
        (jsUnits "1")
      = some { account_id := 1, speaker_name := jsUnits "Alice", speaker_role := none }
    ∧ (none : Option TeamRole) ≠ some TeamRole.member := by
  constructor
  · decide
  · decide

/-- C9 (amended): when a resolver is supplied, every stored entry's role
is the resolver's verdict for its account — and `resolveRole` yields
`member` whenever the account is not in the profile table (the lookup
miss default); when no resolver is supplied the stored `speaker_role` is
left absent (not `"member"`); merging into the persisted map is
last-write-wins by `message_id` — every key written by this save reads
back the newly built entry, overriding any existing one. -/
theorem C9_speaker_map_save :
    (∀ (profiles : List (List Nat × TeamProfile)) (acct : Int),
        jsRecordGet profiles (jsUnits (toString acct)) = none →
        resolveRole profiles acct = { role := .member, roleLabel := roleLabelOf .member })
    ∧ (∀ (msgs : List ChatworkMessage) (f : Int → ResolvedRole),
        ∀ p ∈ buildNewSpeakers msgs (some f),
          p.2.speaker_role = some (f p.2.account_id).role)
    ∧ (∀ msgs : List ChatworkMessage,
        ∀ p ∈ buildNewSpeakers msgs none, p.2.speaker_role = none)
    ∧ (∀ (prev : Option SpeakerMapCache) (rid now : List Nat)
        (msgs : List ChatworkMessage) (rr : Option (Int → ResolvedRole)) (k : List Nat),
        k ∈ (buildNewSpeakers msgs rr).map Prod.fst →
        jsRecordGet (speakerMapSave prev rid now msgs rr).speakers k
          = jsRecordGet (buildNewSpeakers msgs rr) k) := by
  refine ⟨?_, ?_, ?_, ?_⟩
  · intro profiles acct h
    unfold resolveRole
    simp [h]
  · intro msgs f
    exact buildNewSpeakers_values msgs (some f)
      (fun v => v.speaker_role = some (f v.account_id).role) (fun msg _ => rfl)
  · intro msgs
    exact buildNewSpeakers_values msgs none
      (fun v => v.speaker_role = none) (fun msg _ => rfl)
  · intro prev rid now msgs rr k hk
    have e : (speakerMapSave prev rid now msgs rr).speakers
        = (buildNewSpeakers msgs rr).foldl (fun m p => jsRecordSet m p.1 p.2)
            ((prev.map (·.speakers)).getD []) := rfl
    rw [e, jsRecordFold_get]
    have hrev : (buildNewSpeakers msgs rr).reverse.find? (fun p => decide (p.1 = k))
        = (buildNewSpeakers msgs rr).find? (fun p => decide (p.1 = k)) :=
      find?_reverse_of_nodup_key Prod.fst (buildNewSpeakers msgs rr) k
        (buildNewSpeakers_keys_nodup msgs rr)
    rw [hrev]
    cases hfind : (buildNewSpeakers msgs rr).find? (fun p => decide (p.1 = k)) with
    | none =>
        exfalso
        obtain ⟨v, hv⟩ := jsRecordGet_isSome_of_mem_keys hk
        unfold jsRecordGet at hv
        rw [hfind] at hv
        simp at hv
    | some p =>
        unfold jsRecordGet
        rw [hfind]
        rfl

/-- C9 witness: the lookup-miss default of `resolveRole` applied at an
empty profile table. -/
theorem C9_speaker_map_save_witness :
    jsRecordGet ([] : List (List Nat × TeamProfile)) (jsUnits (toString (42 : Int))) = none
    ∧ resolveRole [] 42 = { role := .member, roleLabel := roleLabelOf .member } :=
  ⟨rfl, C9_speaker_map_save.1 [] 42 rfl⟩

/-! ## Claim C10 -/

/-- Sum of the counts of a `Record<string, number>` histogram. -/
def sumSnd {K : Type} (m : List (K × Nat)) : Nat := (m.map Prod.snd).sum

theorem jsRecordAny_iff {K V : Type} [DecidableEq K] (m : List (K × V)) (k : K) :
    (m.any (fun p => decide (p.1 = k)) = true) ↔ k ∈ m.map Prod.fst := by
  rw [List.any_eq_true]
  constructor
  · rintro ⟨p, hp, hpk⟩
    simp only [decide_eq_true_eq] at hpk
    exact List.mem_map.mpr ⟨p, hp, hpk⟩
  · rintro hk
    obtain ⟨p, hp, hpk⟩ := List.mem_map.mp hk
    exact ⟨p, hp, by simp [hpk]⟩

theorem jsRecordGet_none_of_not_mem {K V : Type} [DecidableEq K]
    {m : List (K × V)} {k : K} (h : k ∉ m.map Prod.fst) : jsRecordGet m k = none := by
  unfold jsRecordGet
  have hfind : m.find? (fun p => decide (p.1 = k)) = none := by
    apply List.find?_eq_none.mpr
    intro p hp
    simp only [decide_eq_true_eq]
    intro he
    exact h (List.mem_map.mpr ⟨p, hp, he⟩)
  rw [hfind]
  rfl

/-- Bumping one histogram key (`stats.reasons[r] = (stats.reasons[r] || 0) + 1`)
raises the total count by exactly one. -/
theorem sumSnd_bump {K : Type} [DecidableEq K] (m : List (K × Nat)) (k : K)
    (h : (m.map Prod.fst).Nodup) :
    sumSnd (jsRecordSet m k ((jsRecordGet m k).getD 0 + 1)) = sumSnd m + 1 := by
  induction m with
  | nil => simp [jsRecordSet, jsRecordGet, sumSnd]
  | cons q m ih =>
      rw [List.map_cons, List.nodup_cons] at h
      by_cases hq : q.1 = k
      · have hget : jsRecordGet (q :: m) k = some q.2 := by
          unfold jsRecordGet
          simp [List.find?_cons, hq]
        have hany : ((q :: m).any (fun p => decide (p.1 = k))) = true := by
          apply (jsRecordAny_iff _ _).mpr
          rw [List.map_cons, hq]
          exact List.mem_cons_self _ _
        unfold jsRecordSet
        rw [if_pos hany, hget, List.map_cons]
        have hhead : (if q.1 = k then (k, (some q.2).getD 0 + 1) else q) = (k, q.2 + 1) := by
          simp [hq]
        have htail : m.map (fun p => if p.1 = k then (k, (some q.2).getD 0 + 1) else p) = m := by
          have hid : m.map (fun p => if p.1 = k then (k, (some q.2).getD 0 + 1) else p)
              = m.map id := by
            apply List.map_congr_left
            intro p hp
            have hpk : p.1 ≠ k := by
              intro he
              exact h.1 (List.mem_map.mpr ⟨p, hp, by rw [he, ← hq]⟩)
            simp [hpk]
          rw [hid, List.map_id]
        rw [hhead, htail]
        simp [sumSnd]
        omega
      · by_cases hkm : k ∈ m.map Prod.fst
        · have hget : jsRecordGet (q :: m) k = jsRecordGet m k := by
            unfold jsRecordGet
            simp only [List.find?_cons, hq, decide_False]
          have hany : ((q :: m).any (fun p => decide (p.1 = k))) = true := by
            apply (jsRecordAny_iff _ _).mpr
            rw [List.map_cons]
            exact List.mem_cons_of_mem _ hkm
          have hanyTail : (m.any (fun p => decide (p.1 = k))) = true :=
            (jsRecordAny_iff m k).mpr hkm
          unfold jsRecordSet
          rw [if_pos hany, hget, List.map_cons, if_neg hq]
          have hset : m.map (fun p => if p.1 = k then (k, (jsRecordGet m k).getD 0 + 1) else p)
              = jsRecordSet m k ((jsRecordGet m k).getD 0 + 1) := by
            unfold jsRecordSet
            rw [if_pos hanyTail]
          rw [hset]
          have := ih h.2
          simp [sumSnd] at this ⊢
          omega
        · have hnotmem : k ∉ (q :: m).map Prod.fst := by
            rw [List.map_cons]
            intro hmem
            rcases List.mem_cons.mp hmem with he | he
            · exact hq he.symm
            · exact hkm he
          have hget : jsRecordGet (q :: m) k = none := jsRecordGet_none_of_not_mem hnotmem
          have hany : ¬ (((q :: m).any (fun p => decide (p.1 = k))) = true) := by
            intro ha
            exact hnotmem ((jsRecordAny_iff _ _).mp ha)
          unfold jsRecordSet
          rw [if_neg hany, hget]
          simp [sumSnd]
          omega

theorem length_filter_partition {α : Type} (l : List α) (p : α → Bool) :
    (l.filter p).length + (l.filter (fun x => !(p x))).length = l.length := by
  induction l with
  | nil => rfl
  | cons a l ih =>
      by_cases h : p a = true <;> simp [List.filter_cons, h] <;> omega

/-- The post-filter shape of one retained message: replaced by its
truncated copy when `truncate` fired, passed through unchanged
otherwise. -/
def applyTruncate (cfg : FilterConfig) (msg : ChatworkMessage) : ChatworkMessage :=
  if (truncateMessage msg.body cfg.maxLength).2 then
    { msg with body := (truncateMessage msg.body cfg.maxLength).1 }
  else msg

/-- The retained (non-skipped) messages in input order, with truncation
applied. -/
def keptMessages (cfg : FilterConfig) (msgs : List ChatworkMessage) : List ChatworkMessage :=
  (msgs.filter (fun m => !(shouldSkipMessage m.body cfg).skip)).map (applyTruncate cfg)

theorem keptMessages_cons_skip {cfg : FilterConfig} {m : ChatworkMessage}
    {msgs : List ChatworkMessage} (h : (shouldSkipMessage m.body cfg).skip = true) :
    keptMessages cfg (m :: msgs) = keptMessages cfg msgs := by
  simp [keptMessages, List.filter_cons, h]

theorem keptMessages_cons_keep {cfg : FilterConfig} {m : ChatworkMessage}
    {msgs : List ChatworkMessage} (h : (shouldSkipMessage m.body cfg).skip = false) :
    keptMessages cfg (m :: msgs) = applyTruncate cfg m :: keptMessages cfg msgs := by
  simp [keptMessages, List.filter_cons, h]

theorem filterStep_skip {cfg : FilterConfig} {fl : List ChatworkMessage}
    {st : FilterStats} {m : ChatworkMessage}
    (h : (shouldSkipMessage m.body cfg).skip = true) :
    filterStep cfg (fl, st) m
      = (fl, { st with
          skipped := st.skipped + 1
          reasons := jsRecordSet st.reasons
            ((shouldSkipMessage m.body cfg).reason.getD (.tooShort 0))
            ((jsRecordGet st.reasons
              ((shouldSkipMessage m.body cfg).reason.getD (.tooShort 0))).getD 0 + 1) }) := by
  simp [filterStep, h]

theorem filterStep_truncate {cfg : FilterConfig} {fl : List ChatworkMessage}
    {st : FilterStats} {m : ChatworkMessage}
    (h1 : (shouldSkipMessage m.body cfg).skip = false)
    (h2 : (truncateMessage m.body cfg.maxLength).2 = true) :
    filterStep cfg (fl, st) m
      = (fl ++ [{ m with body := (truncateMessage m.body cfg.maxLength).1 }],
          { st with truncated := st.truncated + 1 }) := by
  simp [filterStep, h1, h2]

theorem filterStep_pass {cfg : FilterConfig} {fl : List ChatworkMessage}
    {st : FilterStats} {m : ChatworkMessage}
    (h1 : (shouldSkipMessage m.body cfg).skip = false)
    (h2 : (truncateMessage m.body cfg.maxLength).2 = false) :
    filterStep cfg (fl, st) m = (fl ++ [m], st) := by
  simp [filterStep, h1, h2]

/-- The accumulated invariant of the `filterMessages` loop. -/
theorem filterFold_invariant (cfg : FilterConfig) :
    ∀ (msgs : List ChatworkMessage) (fl : List ChatworkMessage) (st : FilterStats),
      (st.reasons.map Prod.fst).Nodup →
      (msgs.foldl (filterStep cfg) (fl, st)).1 = fl ++ keptMessages cfg msgs
      ∧ (msgs.foldl (filterStep cfg) (fl, st)).2.total = st.total
      ∧ (msgs.foldl (filterStep cfg) (fl, st)).2.skipped
          = st.skipped + (msgs.filter (fun m => (shouldSkipMessage m.body cfg).skip)).length
      ∧ (msgs.foldl (filterStep cfg) (fl, st)).2.truncated
          = st.truncated + (msgs.filter (fun m =>
              !(shouldSkipMessage m.body cfg).skip
                && (truncateMessage m.body cfg.maxLength).2)).length
      ∧ sumSnd (msgs.foldl (filterStep cfg) (fl, st)).2.reasons
          = sumSnd st.reasons
            + (msgs.filter (fun m => (shouldSkipMessage m.body cfg).skip)).length
      ∧ ((msgs.foldl (filterStep cfg) (fl, st)).2.reasons.map Prod.fst).Nodup := by
  intro msgs
  induction msgs with
  | nil =>
      intro fl st h
      refine ⟨by simp [keptMessages], rfl, by simp, by simp, by simp, h⟩
  | cons m msgs ih =>
      intro fl st hnd
      rw [List.foldl_cons]
      by_cases hskip : (shouldSkipMessage m.body cfg).skip = true
      · rw [filterStep_skip hskip]
        have hnd' : ((jsRecordSet st.reasons
            ((shouldSkipMessage m.body cfg).reason.getD (.tooShort 0))
            ((jsRecordGet st.reasons
              ((shouldSkipMessage m.body cfg).reason.getD (.tooShort 0))).getD 0 + 1)).map
              Prod.fst).Nodup := jsRecordSet_keys_nodup _ _ hnd
        obtain ⟨i1, i2, i3, i4, i5, i6⟩ := ih fl
          { st with
            skipped := st.skipped + 1
            reasons := jsRecordSet st.reasons
              ((shouldSkipMessage m.body cfg).reason.getD (.tooShort 0))
              ((jsRecordGet st.reasons
                ((shouldSkipMessage m.body cfg).reason.getD (.tooShort 0))).getD 0 + 1) }
          hnd'
        refine ⟨?_, ?_, ?_, ?_, ?_, i6⟩
        · rw [i1, keptMessages_cons_skip hskip]
        · rw [i2]
        · rw [i3]
          simp [List.filter_cons, hskip]
          omega
        · rw [i4]
          simp [List.filter_cons, hskip]
        · rw [i5]
          simp only []
          rw [sumSnd_bump _ _ hnd]
          simp [List.filter_cons, hskip]
          omega
      · have hskip' : (shouldSkipMessage m.body cfg).skip = false :=
          Bool.eq_false_iff.mpr hskip
        by_cases htr : (truncateMessage m.body cfg.maxLength).2 = true
        · rw [filterStep_truncate hskip' htr]
          obtain ⟨i1, i2, i3, i4, i5, i6⟩ := ih
            (fl ++ [{ m with body := (truncateMessage m.body cfg.maxLength).1 }])
            { st with truncated := st.truncated + 1 } hnd
          refine ⟨?_, ?_, ?_, ?_, ?_, i6⟩
          · rw [i1, keptMessages_cons_keep hskip']
            have happ : applyTruncate cfg m
                = { m with body := (truncateMessage m.body cfg.maxLength).1 } := by
              unfold applyTruncate
              rw [if_pos htr]
            rw [happ]
            simp
          · rw [i2]
          · rw [i3]
            simp [List.filter_cons, hskip']
          · rw [i4]
            simp [List.filter_cons, hskip', htr]
            omega
          · rw [i5]
            simp [List.filter_cons, hskip']
        · have htr' : (truncateMessage m.body cfg.maxLength).2 = false :=
            Bool.eq_false_iff.mpr htr
          rw [filterStep_pass hskip' htr']
          obtain ⟨i1, i2, i3, i4, i5, i6⟩ := ih (fl ++ [m]) st hnd
          refine ⟨?_, i2, ?_, ?_, ?_, i6⟩
          · rw [i1, keptMessages_cons_keep hskip']
            have happ : applyTruncate cfg m = m := by
              unfold applyTruncate
              rw [if_neg (by rw [htr']; exact Bool.false_ne_true)]
            rw [happ]
            simp
          · rw [i3]
            simp [List.filter_cons, hskip']
          · rw [i4]
            simp [List.filter_cons, hskip', htr']
          · rw [i5]
            simp [List.filter_cons, hskip']

/-- C10: `filterMessages` partitions its input — `stats.total` is the
input length, `stats.skipped` plus the output length equals the total,
the reason histogram's counts sum to `stats.skipped`, the output is the
non-skipped input subsequence in order with truncation applied, and
every retained message that truncation leaves alone is the unchanged
input message. -/
theorem C10_filter_accounting (msgs : List ChatworkMessage) (cfg : FilterConfig) :
    (filterMessages msgs cfg).2.total = msgs.length
    ∧ (filterMessages msgs cfg).2.skipped + (filterMessages msgs cfg).1.length = msgs.length
    ∧ sumSnd (filterMessages msgs cfg).2.reasons = (filterMessages msgs cfg).2.skipped
    ∧ (filterMessages msgs cfg).1 = keptMessages cfg msgs
    ∧ (∀ m ∈ msgs, (shouldSkipMessage m.body cfg).skip = false →
        (truncateMessage m.body cfg.maxLength).2 = false →
        m ∈ (filterMessages msgs cfg).1) := by
  have hinv := filterFold_invariant cfg msgs []
    { total := msgs.length, skipped := 0, truncated := 0, reasons := [] } (by simp)
  obtain ⟨i1, i2, i3, i4, i5, i6⟩ := hinv
  have hfm1 : (filterMessages msgs cfg).1 = keptMessages cfg msgs := by
    unfold filterMessages
    rw [i1]
    simp
  have hfm2 : (filterMessages msgs cfg).2.total = msgs.length := by
    unfold filterMessages
    rw [i2]
  have hfmsk : (filterMessages msgs cfg).2.skipped
      = (msgs.filter (fun m => (shouldSkipMessage m.body cfg).skip)).length := by
    unfold filterMessages
    rw [i3]
    simp
  refine ⟨hfm2, ?_, ?_, hfm1, ?_⟩
  · rw [hfmsk, hfm1]
    unfold keptMessages
    rw [List.length_map]
    exact length_filter_partition msgs _
  · unfold filterMessages
    rw [i5, i3]
    simp [sumSnd]
  · intro m hm h1 h2
    rw [hfm1]
    unfold keptMessages
    have hmem : m ∈ msgs.filter (fun m => !(shouldSkipMessage m.body cfg).skip) :=
      List.mem_filter.mpr ⟨hm, by simp [h1]⟩
    have happ : applyTruncate cfg m = m := by
      unfold applyTruncate
      rw [if_neg (by rw [h2]; exact Bool.false_ne_true)]
    exact List.mem_map.mpr ⟨m, hmem, happ⟩

/-- C10 witness: the pass-through clause applied at a concrete
non-skipped, non-truncated message. -/
theorem C10_filter_accounting_witness :
    (shouldSkipMessage msgT1.body DEFAULT_FILTER_CONFIG).skip = false
    ∧ (truncateMessage msgT1.body DEFAULT_FILTER_CONFIG.maxLength).2 = false
    ∧ msgT1 ∈ (filterMessages [msgT1] DEFAULT_FILTER_CONFIG).1 :=
  ⟨by decide, by decide,
    (C10_filter_accounting [msgT1] DEFAULT_FILTER_CONFIG).2.2.2.2 msgT1 (by decide)
      (by decide) (by decide)⟩

end ChatworkKE
